import Mathlib

set_option autoImplicit false
set_option linter.unusedSectionVars false

namespace PrintAudit

/-! ## Python string and integer primitives used by `printaudit.parser`

Strings are Lean `String`s; Python semantics (whitespace split, `int()`,
`str.strip()`, substring search) are embedded explicitly below. -/

/-- Split a character list at every character satisfying `p`, keeping empty
segments (the behaviour of Python `str.split(sep)` per separator occurrence). -/
def splitPred (p : Char → Bool) : List Char → List (List Char)
  | [] => [[]]
  | c :: rest =>
    let r := splitPred p rest
    if p c then [] :: r else (c :: r.headD []) :: r.tail

/-- Python `str.split(sep)` for a one-character separator (empty parts kept). -/
def splitOnCh (sep : Char) (s : String) : List String :=
  (splitPred (fun c => c == sep) s.toList).map (fun l => (⟨l⟩ : String))

/-- Python `str.split()` with no separator: split on whitespace runs, dropping
empty tokens. -/
def pySplit (s : String) : List String :=
  ((splitPred Char.isWhitespace s.toList).map (fun l => (⟨l⟩ : String))).filter
    (fun t => t ≠ "")

/-- ASCII lower-casing of one character. -/
def lowerChar (c : Char) : Char :=
  if 'A' ≤ c ∧ c ≤ 'Z' then Char.ofNat (c.toNat + 32) else c

/-- Python `str.lower()` (ASCII). -/
def pyLower (s : String) : String := ⟨s.toList.map lowerChar⟩

/-- Python `sep.join(parts)`. -/
def joinWith (sep : String) (parts : List String) : String :=
  ⟨List.intercalate sep.toList (parts.map (fun x => x.toList))⟩

/-- Python `str.isdigit()` restricted to ASCII digits. -/
def isDigits (s : String) : Bool :=
  s.toList ≠ [] && s.toList.all Char.isDigit

def digitsToNatL (l : List Char) : Nat :=
  l.foldl (fun n c => 10 * n + (c.toNat - 48)) 0

def digitsToNat (s : String) : Nat := digitsToNatL s.toList

/-- Helper for `digitsU`: no trailing `'_'` and no two consecutive `'_'`. -/
def underscoreOk : List Char → Bool
  | [] => true
  | ['_'] => false
  | '_' :: '_' :: _ => false
  | _ :: rest => underscoreOk rest

/-- Digit run as accepted by Python `int()`: ASCII digits with single
underscores strictly between digits. -/
def digitsU (l : List Char) : Bool :=
  match l with
  | [] => false
  | c :: _ => c.isDigit && l.all (fun d => d.isDigit || d == '_') && underscoreOk l

/-- Python `int(token)` applied to a whitespace-free token: optional sign, then
digits (with underscores allowed between digits). `none` models `ValueError`. -/
def pyToInt? (s : String) : Option Int :=
  match s.toList with
  | '+' :: rest =>
    if digitsU rest then some ((digitsToNatL (rest.filter (fun c => c != '_')) : Int)) else none
  | '-' :: rest =>
    if digitsU rest then some (-(digitsToNatL (rest.filter (fun c => c != '_')) : Int)) else none
  | l =>
    if digitsU l then some ((digitsToNatL (l.filter (fun c => c != '_')) : Int)) else none

def ltrimChars (l : List Char) : List Char := l.dropWhile Char.isWhitespace

def trimChars (l : List Char) : List Char :=
  ((ltrimChars l).reverse.dropWhile Char.isWhitespace).reverse

/-- Python `str.strip()`. -/
def pyStrip (s : String) : String := ⟨trimChars s.toList⟩

/-- Boolean: `n` is a prefix of the second list. -/
def prefixOfB : List Char → List Char → Bool
  | [], _ => true
  | _ :: _, [] => false
  | a :: as, b :: bs => a == b && prefixOfB as bs

/-- Boolean: `n` occurs as a contiguous sublist. -/
def infixOfB (n : List Char) : List Char → Bool
  | [] => prefixOfB n []
  | b :: bs => prefixOfB n (b :: bs) || infixOfB n bs

/-- Python `needle in hay` on strings. -/
def pyContains (hay needle : String) : Bool := infixOfB needle.toList hay.toList

/-! ## `printaudit.parser` -/

/-- Aware `datetime` as produced by `strptime` with format
`%d/%b/%Y:%H:%M:%S %z`. `tzMinutes` is the UTC offset in minutes. -/
structure PyDateTime where
  year : Int
  month : Int
  day : Int
  hour : Int
  minute : Int
  second : Int
  tzMinutes : Int
deriving DecidableEq

/-- Days since 1970-01-01 of a civil date (Gregorian, proleptic). -/
def daysFromCivil (y m d : Int) : Int :=
  let y2 : Int := if m ≤ 2 then y - 1 else y
  let era : Int := (if 0 ≤ y2 then y2 else y2 - 399) / 400
  let yoe : Int := y2 - era * 400
  let mp : Int := (m + 9) % 12
  let doy : Int := (153 * mp + 2) / 5 + d - 1
  let doe : Int := yoe * 365 + yoe / 4 - yoe / 100 + doy
  era * 146097 + doe - 719468

/-- Seconds since the epoch; Python compares aware datetimes by this value. -/
def toInstant (t : PyDateTime) : Int :=
  daysFromCivil t.year t.month t.day * 86400
    + t.hour * 3600 + t.minute * 60 + t.second - t.tzMinutes * 60

/-- Python `<` on aware datetimes. -/
def dtLt (a b : PyDateTime) : Bool := decide (toInstant a < toInstant b)

def month_of_abbrev (s : String) : Option Int :=
  match pyLower s with
  | "jan" => some 1
  | "feb" => some 2
  | "mar" => some 3
  | "apr" => some 4
  | "may" => some 5
  | "jun" => some 6
  | "jul" => some 7
  | "aug" => some 8
  | "sep" => some 9
  | "oct" => some 10
  | "nov" => some 11
  | "dec" => some 12
  | _ => none

def is_leap (y : Int) : Bool :=
  decide (y % 4 = 0) && (decide (y % 100 ≠ 0) || decide (y % 400 = 0))

def days_in_month (y m : Int) : Int :=
  if m = 2 then (if is_leap y then 29 else 28)
  else if m = 4 ∨ m = 6 ∨ m = 9 ∨ m = 11 then 30
  else 31

/-- `%z` directive: sign plus four digits, offset strictly inside one day. -/
def parseTzOffset (s : String) : Option Int :=
  match s.toList with
  | [sign, h1, h2, m1, m2] =>
    if (sign == '+' || sign == '-') && h1.isDigit && h2.isDigit && m1.isDigit && m2.isDigit then
      let mins : Int :=
        (10 * ((h1.toNat : Int) - 48) + ((h2.toNat : Int) - 48)) * 60
          + (10 * ((m1.toNat : Int) - 48) + ((m2.toNat : Int) - 48))
      let signed : Int := if sign == '-' then -mins else mins
      if -1440 < signed ∧ signed < 1440 then some signed else none
    else none
  | _ => none

/-- `datetime.strptime(s, "%d/%b/%Y:%H:%M:%S %z")`, including the range checks
`strptime` and the `datetime` constructor perform. -/
def parseTimestamp (s : String) : Option PyDateTime :=
  match splitOnCh ' ' s with
  | [dmy, tzs] =>
    match splitOnCh '/' dmy with
    | [dd, mon, rest2] =>
      match splitOnCh ':' rest2 with
      | [yyyy, hh, mi, ss] =>
        match month_of_abbrev mon, parseTzOffset tzs with
        | some m, some off =>
          if isDigits dd = true ∧ dd.toList.length ≤ 2
              ∧ isDigits yyyy = true ∧ yyyy.toList.length = 4
              ∧ isDigits hh = true ∧ hh.toList.length ≤ 2
              ∧ isDigits mi = true ∧ mi.toList.length ≤ 2
              ∧ isDigits ss = true ∧ ss.toList.length ≤ 2 then
            let d : Int := (digitsToNat dd : Int)
            let y : Int := (digitsToNat yyyy : Int)
            let h : Int := (digitsToNat hh : Int)
            let mnt : Int := (digitsToNat mi : Int)
            let sec : Int := (digitsToNat ss : Int)
            if 1 ≤ d ∧ d ≤ days_in_month y m ∧ h ≤ 23 ∧ mnt ≤ 59 ∧ sec ≤ 59 then
              some ⟨y, m, d, h, mnt, sec, off⟩
            else none
          else none
        | _, _ => none
      | _ => none
    | _ => none
  | _ => none

/-- `parser.LogEntry`. -/
structure LogEntry where
  printer : String
  user : String
  job_id : Nat
  timestamp : PyDateTime
  pages : Int
  copies : Int
  billing_code : Option String
  host : Option String
  job_name : Option String
  media : Option String
  sides : Option String
  raw : String
deriving DecidableEq

/-- `parser.normalize_optional`. -/
def normalize_optional (value : String) : Option String :=
  let stripped := pyStrip value
  if stripped = "" ∨ stripped = "-" then none else some stripped

/-- `parser.normalize_billing`. -/
def normalize_billing (value : String) : Option String :=
  match normalize_optional value with
  | none => none
  | some s => if s = "-none-" then none else some s

/-- `parser.normalize_user`. -/
def normalize_user (user : String) : String :=
  let result := pyLower (pyStrip user)
  if result = "" then "unknown" else result

/-- Legacy PrintAnalyzer payload: `pages copies billing`, extra tokens
ignored; `t0` is the (all-digit) first token, `ts` the remaining tokens. -/
def legacy_payload (t0 : String) (ts : List String) :
    Option (Int × Int × Option String × Option String × Option String × Option String × Option String) :=
  match ts with
  | t1 :: t2 :: _ =>
    match pyToInt? t1 with
    | some copies =>
      some ((digitsToNat t0 : Int), copies, normalize_billing t2, none, none, none, none)
    | none => none
  | _ => none

/-- Default CUPS payload: `<keyword> <pages> <billing> <host> [job...] <media>
<sides>`; `t0` is the keyword token, `ts` the remaining tokens. -/
def default_payload (t0 : String) (ts : List String) :
    Option (Int × Int × Option String × Option String × Option String × Option String × Option String) :=
  let keyword := pyLower t0
  if keyword ≠ "total" ∧ keyword ≠ "page" then none
  else
    match ts with
    | t1 :: t2 :: rem =>
      if rem = [] then none  -- len(tokens) < 4
      else
        match pyToInt? t1 with
        | none => none
        | some pages =>
          let billing := normalize_billing t2
          let remaining := rem
          if remaining.length < 3 then none
          else
            let host := normalize_optional (remaining.headD "")
            let media := normalize_optional (remaining.getD (remaining.length - 2) "")
            let sides := normalize_optional (remaining.getD (remaining.length - 1) "")
            let job_name_tokens := ((remaining.drop 1).dropLast).dropLast
            let job_name :=
              if job_name_tokens ≠ [] then
                normalize_optional (joinWith " " job_name_tokens)
              else none
            some (pages, 1, billing, host, job_name, media, sides)
    | _ => none

/-- `parser._parse_rest`: payload of a page_log row, both dialects.
Returns `(pages, copies, billing, host, job_name, media, sides)`;
`none` models the `ValueError`s (including those of `int()`). -/
def parse_rest (rest : String) :
    Option (Int × Int × Option String × Option String × Option String × Option String × Option String) :=
  if rest = "" then none
  else
    match pySplit rest with
    | [] => none
    | t0 :: ts =>
      if isDigits t0 then legacy_payload t0 ts
      else default_payload t0 ts

/-- The `LINE_HEADER` regular expression of `parser.parse_line`:
`^(\S+)\s+(\S+)\s+(\d+)\s+\[([^\]]+)\]\s+(.+)$`, returning
`(printer, user, job_id digits, timestamp text, rest)`. -/
def parse_header (line : String) : Option (String × String × String × String × String) :=
  let cs := line.toList
  let p1 := cs.span (fun c => !c.isWhitespace)
  if p1.1 = [] then none
  else
    let q1 := p1.2.span Char.isWhitespace
    if q1.1 = [] then none
    else
      let p2 := q1.2.span (fun c => !c.isWhitespace)
      if p2.1 = [] then none
      else
        let q2 := p2.2.span Char.isWhitespace
        if q2.1 = [] then none
        else
          let p3 := q2.2.span Char.isDigit
          if p3.1 = [] then none
          else
            let q3 := p3.2.span Char.isWhitespace
            if q3.1 = [] then none
            else
              match q3.2 with
              | '[' :: r7 =>
                let p4 := r7.span (fun c => !(c == ']'))
                if p4.1 = [] then none
                else
                  match p4.2 with
                  | ']' :: r9 =>
                    let q4 := r9.span Char.isWhitespace
                    if q4.1 = [] then none
                    else if q4.2 = [] then none
                    else some (⟨p1.1⟩, ⟨p2.1⟩, ⟨p3.1⟩, ⟨p4.1⟩, ⟨q4.2⟩)
                  | _ => none
              | _ => none

/-- `parser.parse_line`; `none` models a raised `ValueError`. -/
def parse_line (line : String) : Option LogEntry :=
  match parse_header line with
  | none => none
  | some (printerS, userS, jobS, tsS, restS) =>
    match parseTimestamp tsS with
    | none => none
    | some ts =>
      match parse_rest restS with
      | none => none
      | some (pages, copies, billing, host, jobName, media, sides) =>
        some { printer := printerS
               user := normalize_user userS
               job_id := digitsToNat jobS
               timestamp := ts
               pages := pages
               copies := copies
               billing_code := billing
               host := host
               job_name := jobName
               media := media
               sides := sides
               raw := line }

/-! ## Counters

Python `Counter`/`dict` preserves insertion order; we model a counter as an
association list: updating an existing key keeps its position, a new key is
appended. `defaultdict(Counter)` lookups that insert are modelled by `ddGet`,
which returns the (possibly extended) map. -/

section Counters

variable {κ κ' : Type} [DecidableEq κ] [DecidableEq κ']

/-- `counter[k] += v` (insertion-ordered). -/
def cntAdd (k : κ) (v : Int) : List (κ × Int) → List (κ × Int)
  | [] => [(k, v)]
  | (k', v') :: rest => if k' = k then (k', v' + v) :: rest else (k', v') :: cntAdd k v rest

/-- `counter[k]` (a missing key reads as 0, without insertion). -/
def cntGet (k : κ) : List (κ × Int) → Int
  | [] => 0
  | (k', v') :: rest => if k' = k then v' else cntGet k rest

/-- `nested[k1][k2] += v` on a `defaultdict(Counter)`. -/
def cnt2Add (k1 : κ) (k2 : κ') (v : Int) :
    List (κ × List (κ' × Int)) → List (κ × List (κ' × Int))
  | [] => [(k1, cntAdd k2 v [])]
  | (k, c) :: rest =>
    if k = k1 then (k, cntAdd k2 v c) :: rest else (k, c) :: cnt2Add k1 k2 v rest

def cnt2Get (k1 : κ) (k2 : κ') : List (κ × List (κ' × Int)) → Int
  | [] => 0
  | (k, c) :: rest => if k = k1 then cntGet k2 c else cnt2Get k1 k2 rest

/-- `defaultdict.__getitem__`: returns the value and the map, which gains a
fresh empty counter when the key was missing. -/
def ddGet (k : κ) : List (κ × List (κ' × Int)) → List (κ' × Int) × List (κ × List (κ' × Int))
  | [] => ([], [(k, [])])
  | (k', v) :: rest =>
    if k' = k then (v, (k', v) :: rest)
    else
      let p := ddGet k rest
      (p.1, (k', v) :: p.2)

def sumVals (c : List (κ × Int)) : Int := (c.map (fun p => p.2)).sum

/-- Merge of shard tallies: counter-wise sum (right operand folded in). -/
def cntMerge (a b : List (κ × Int)) : List (κ × Int) :=
  b.foldl (fun acc p => cntAdd p.1 p.2 acc) a

def cnt2Merge (a b : List (κ × List (κ' × Int))) : List (κ × List (κ' × Int)) :=
  b.foldl (fun acc p => p.2.foldl (fun acc2 q => cnt2Add p.1 q.1 q.2 acc2) acc) a

end Counters

/-! ## Stable sorting (Python `sorted` is stable; `Counter.most_common` is a
stable descending sort by count) -/

section SortBy

variable {α : Type}

def insertBy (le : α → α → Bool) (x : α) : List α → List α
  | [] => [x]
  | y :: ys => if le x y then x :: y :: ys else y :: insertBy le x ys

def sortBy (le : α → α → Bool) : List α → List α
  | [] => []
  | x :: xs => insertBy le x (sortBy le xs)

end SortBy

/-- `Counter.most_common()`: stable sort, count descending. -/
def mostCommon {κ : Type} (c : List (κ × Int)) : List (κ × Int) :=
  sortBy (fun a b => decide (b.2 ≤ a.2)) c

/-- `aggregator._top_items` with the default limit 5. -/
def topItems {κ : Type} (c : List (κ × Int)) : List (κ × Int) :=
  (mostCommon c).take 5

/-! ## `printaudit.analysis.aggregator`: report data model -/

structure Totals where
  requests : Int
  pages : Int
  first_event : Option PyDateTime
  last_event : Option PyDateTime
deriving DecidableEq

structure QueueStat where
  queue : String
  requests_pct : ℚ
  pages_pct : ℚ
  requests : Int
  pages : Int
deriving DecidableEq

structure QueueUserStat where
  queue : String
  user : String
  pages : Int
deriving DecidableEq

structure UserStat where
  user : String
  requests : Int
  pages : Int
  pages_per_request : ℚ
deriving DecidableEq

structure TemporalPoint where
  key : String
  requests : Int
  pages : Int
  within_hours : Option Bool
deriving DecidableEq

/-- `_build_bucket_section` constructs `JobBucket` rows for both histograms. -/
structure JobBucket where
  label : String
  pct_requests : ℚ
  request_count : Int
deriving DecidableEq

structure CostStat where
  label : String
  pages : Int
  per_user : List (String × Int)
  per_queue : List (String × Int)
  amount : ℚ
deriving DecidableEq

structure SimpleStat where
  label : String
  pages : Int
deriving DecidableEq

structure AnalysisReport where
  totals : Totals
  queue_stats : List QueueStat
  queue_user_stats : List QueueUserStat
  user_stats : List UserStat
  hourly : List TemporalPoint
  daily : List TemporalPoint
  job_buckets : List JobBucket
  copy_buckets : List JobBucket
  cost_stats : List CostStat
  client_stats : List SimpleStat
  document_types : List SimpleStat
  media_stats : List SimpleStat
  duplex_stats : List SimpleStat
deriving DecidableEq

/-- `JOB_BUCKETS` table. -/
def JOB_BUCKETS : List (Option Int × Option Int × String) :=
  [(some 0, some 10, "0-10"),
   (some 11, some 20, "11-20"),
   (some 21, some 30, "21-30"),
   (some 31, some 40, "31-40"),
   (some 41, some 50, "41-50"),
   (some 51, some 100, "51-100"),
   (some 101, some 200, "101-200"),
   (some 201, none, "200+")]

/-- `COPY_BUCKETS` table. -/
def COPY_BUCKETS : List (Option Int × Option Int × String) :=
  [(some 1, some 1, "1"),
   (some 2, some 2, "2"),
   (some 3, some 3, "3"),
   (some 4, some 4, "4"),
   (some 5, some 10, "5-10"),
   (some 11, some 20, "11-20"),
   (some 21, some 30, "21-30"),
   (some 31, some 40, "31-40"),
   (some 41, some 50, "41-50"),
   (some 51, some 100, "51-100"),
   (some 101, none, "100+")]

/-- First `continue` test of the `_bucketize` loop:
`low is not None and value < low`. -/
def lowSkip (value : Int) (low : Option Int) : Bool :=
  match low with
  | some lo => decide (value < lo)
  | none => false

/-- Second `continue` test: `high is not None and value > high`. -/
def highSkip (value : Int) (high : Option Int) : Bool :=
  match high with
  | some hi => decide (hi < value)
  | none => false

/-- Loop body of `UsageAggregator._bucketize`: first bucket not skipped. -/
def bucketizeAux (value : Int) : List (Option Int × Option Int × String) → Option String
  | [] => none
  | (low, high, label) :: rest =>
    if lowSkip value low then bucketizeAux value rest
    else if highSkip value high then bucketizeAux value rest
    else some label

/-- `UsageAggregator._bucketize`, including the fall-through
`f">{buckets[-1][1]}" if buckets and buckets[-1][1] else "other"`. -/
def bucketize (value : Int) (buckets : List (Option Int × Option Int × String)) : String :=
  match bucketizeAux value buckets with
  | some label => label
  | none =>
    match buckets.getLast? with
    | some (_, some hi, _) => if hi ≠ 0 then ">" ++ toString hi else "other"
    | _ => "other"

/-- `COMMON_EXTENSIONS`. -/
def COMMON_EXTENSIONS : List String :=
  ["pdf", "doc", "docx", "odt", "rtf", "txt", "pages",
   "xls", "xlsx", "xlsm", "csv", "ods", "numbers",
   "ppt", "pptx", "odp", "key",
   "jpg", "jpeg", "png", "gif", "bmp", "tiff", "tif", "svg",
   "frx", "rpt", "mrt", "rep",
   "html", "htm", "xml", "json", "log",
   "ps", "eps", "prn",
   "cgi", "md", "tex"]

/-- `aggregator._document_extension`. -/
def document_extension (name : Option String) : String :=
  match name with
  | none => "unknown"
  | some n =>
    if n = "" ∨ n = "unknown" then "unknown"
    else
      let lowered := pyLower n
      if !(lowered.toList.contains '.') then "unknown"
      else
        let ext := (splitOnCh '.' lowered).getLastD ""
        if COMMON_EXTENSIONS.contains ext then ext else "unknown"

/-- `aggregator.normalize_duplex`. -/
def normalize_duplex (sides : Option String) : String :=
  match sides with
  | none => "unknown"
  | some s =>
    if s = "" then "unknown"
    else
      let value := pyLower s
      if prefixOfB "two-sided".toList value.toList then "duplex"
      else if value = "one-sided" ∨ value = "simplex" then "simplex"
      else value

/-- `aggregator.re_splitter`. -/
def re_splitter (raw : String) : List String :=
  let tokens := [raw]
  let tokens := tokens.flatMap (fun t => splitOnCh ',' t)
  let tokens := tokens.flatMap (fun t => splitOnCh '|' t)
  tokens.flatMap (fun t => splitOnCh ';' t)

/-! ## Aggregator state -/

/-- The mutable fields of `UsageAggregator`, including the configuration it is
constructed with. -/
structure AggState where
  totals : Totals
  queue_requests : List (String × Int)
  queue_pages : List (String × Int)
  queue_user_pages : List ((String × String) × Int)
  user_requests : List (String × Int)
  user_pages : List (String × Int)
  hourly : List (String × Int)
  hourly_pages : List (String × Int)
  daily : List (String × Int)
  daily_pages : List (String × Int)
  job_histogram : List (String × Int)
  copy_histogram : List (String × Int)
  cost_pages : List (String × Int)
  cost_user_pages : List (String × List (String × Int))
  cost_queue_pages : List (String × List (String × Int))
  client_pages : List (String × Int)
  document_pages : List (String × Int)
  media_pages : List (String × Int)
  duplex_pages : List (String × Int)
  cost_rules : List (String × String)
  work_start : Int
  work_end : Int
  cost_default : ℚ
  cost_printer_rates : List (String × ℚ)
  cost_label_rates : List (String × ℚ)
deriving DecidableEq

/-- `UsageAggregator.__init__` (The Python keyword defaults are
`work_start=7`, `work_end=22`, empty rules and rate tables, rate 0). -/
def mkAggregator (cost_rules : List (String × String) := [])
    (work_start : Int := 7) (work_end : Int := 22) (cost_default : ℚ := 0)
    (cost_printer_rates : List (String × ℚ) := [])
    (cost_label_rates : List (String × ℚ) := []) : AggState :=
  { totals := ⟨0, 0, none, none⟩
    queue_requests := []
    queue_pages := []
    queue_user_pages := []
    user_requests := []
    user_pages := []
    hourly := []
    hourly_pages := []
    daily := []
    daily_pages := []
    job_histogram := []
    copy_histogram := []
    cost_pages := []
    cost_user_pages := []
    cost_queue_pages := []
    client_pages := []
    document_pages := []
    media_pages := []
    duplex_pages := []
    cost_rules := cost_rules
    work_start := work_start
    work_end := work_end
    cost_default := cost_default
    cost_printer_rates := cost_printer_rates
    cost_label_rates := cost_label_rates }

/-- `UsageAggregator._infer_billing`. -/
def infer_billing (rules : List (String × String)) (e : LogEntry) : Option String :=
  if rules.isEmpty then none
  else
    let parts := [e.printer, e.user, e.job_name.getD "", e.host.getD ""].filter (fun p => p ≠ "")
    let haystack := pyLower (joinWith " " parts)
    rules.findSome? (fun rule =>
      let tokens :=
        ((re_splitter rule.2).filter (fun t => pyStrip t ≠ "")).map (fun t => pyLower (pyStrip t))
      if tokens.isEmpty then none
      else if tokens.any (fun t => pyContains haystack t) then some rule.1
      else none)

/-- Python `billing or "unassigned"` (`None` and `""` are falsy). -/
def orUnassigned (billing : Option String) : String :=
  match billing with
  | some b => if b = "" then "unassigned" else b
  | none => "unassigned"

/-- Cost label resolution in `UsageAggregator.ingest`:
`billing = entry.billing_code or self._infer_billing(entry)` followed by
`label = billing or "unassigned"` (Python `or` treats `None` and `""` as
falsy). -/
def costLabel (rules : List (String × String)) (e : LogEntry) : String :=
  orUnassigned
    (match e.billing_code with
     | some b => if b = "" then infer_billing rules e else some b
     | none => infer_billing rules e)

/-- Timestamp-minimum update on `totals.first_event`. -/
def stepMin (ts : PyDateTime) (o : Option PyDateTime) : Option PyDateTime :=
  match o with
  | none => some ts
  | some f => if dtLt ts f then some ts else some f

/-- Timestamp-maximum update on `totals.last_event`. -/
def stepMax (ts : PyDateTime) (o : Option PyDateTime) : Option PyDateTime :=
  match o with
  | none => some ts
  | some f => if dtLt f ts then some ts else some f

def pad2 (n : Int) : String :=
  if n < 10 then "0" ++ toString n else toString n

def pad4 (n : Int) : String :=
  if n < 10 then "000" ++ toString n
  else if n < 100 then "00" ++ toString n
  else if n < 1000 then "0" ++ toString n
  else toString n

/-- `timestamp.strftime("%H:00")`. -/
def hourKey (t : PyDateTime) : String := pad2 t.hour ++ ":00"

/-- `timestamp.strftime("%Y-%m-%d")`. -/
def dayKey (t : PyDateTime) : String :=
  pad4 t.year ++ "-" ++ pad2 t.month ++ "-" ++ pad2 t.day

/-- `UsageAggregator.ingest`. -/
def ingest (s : AggState) (e : LogEntry) : AggState :=
  let hour_key := hourKey e.timestamp
  let day_key := dayKey e.timestamp
  let label := costLabel s.cost_rules e
  let client_label :=
    match e.host with
    | some h => if h = "" then "unknown" else h
    | none => "unknown"
  let doc_type := document_extension e.job_name
  let media_label :=
    match e.media with
    | some m => if m = "" then "unknown" else m
    | none => "unknown"
  let duplex_label := normalize_duplex e.sides
  { s with
    totals :=
      { requests := s.totals.requests + 1
        pages := s.totals.pages + e.pages
        first_event := stepMin e.timestamp s.totals.first_event
        last_event := stepMax e.timestamp s.totals.last_event }
    queue_requests := cntAdd e.printer 1 s.queue_requests
    queue_pages := cntAdd e.printer e.pages s.queue_pages
    queue_user_pages := cntAdd (e.printer, e.user) e.pages s.queue_user_pages
    user_requests := cntAdd e.user 1 s.user_requests
    user_pages := cntAdd e.user e.pages s.user_pages
    hourly := cntAdd hour_key 1 s.hourly
    hourly_pages := cntAdd hour_key e.pages s.hourly_pages
    daily := cntAdd day_key 1 s.daily
    daily_pages := cntAdd day_key e.pages s.daily_pages
    job_histogram := cntAdd (bucketize e.pages JOB_BUCKETS) 1 s.job_histogram
    copy_histogram := cntAdd (bucketize e.copies COPY_BUCKETS) 1 s.copy_histogram
    cost_pages := cntAdd label e.pages s.cost_pages
    cost_user_pages := cnt2Add label e.user e.pages s.cost_user_pages
    cost_queue_pages := cnt2Add label e.printer e.pages s.cost_queue_pages
    client_pages := cntAdd client_label e.pages s.client_pages
    document_pages := cntAdd doc_type e.pages s.document_pages
    media_pages := cntAdd media_label e.pages s.media_pages
    duplex_pages := cntAdd duplex_label e.pages s.duplex_pages }

/-! ## Report derivation -/

/-- Banker's rounding to an integer (Python `round` on a number `x`). -/
def roundHalfEven (x : ℚ) : ℤ :=
  let f := ⌊x⌋
  let frac := x - f
  if frac < 1/2 then f
  else if 1/2 < frac then f + 1
  else if f % 2 = 0 then f else f + 1

/-- Python `round(x, 2)` (exact-rational stand-in for the float operation). -/
def pyRound2 (x : ℚ) : ℚ := (roundHalfEven (x * 100) : ℚ) / 100

/-- `int(h.split(":", 1)[0])` on an `"HH:00"` key. -/
def hourIntOf (h : String) : Int := (digitsToNat ((splitOnCh ':' h).headD "") : Int)

/-- Ascending stable sort of strings (Python `sorted` on `str`). -/
def sortStr (l : List String) : List String :=
  sortBy (fun a b => !(decide (b < a))) l

/-- `UsageAggregator._build_queue_stats`. -/
def build_queue_stats (s : AggState) : List QueueStat :=
  let total_requests := max s.totals.requests 1
  let total_pages := max s.totals.pages 1
  (mostCommon s.queue_pages).map (fun p =>
    let requests := cntGet p.1 s.queue_requests
    { queue := p.1
      requests_pct := pyRound2 (100 * (requests : ℚ) / (total_requests : ℚ))
      pages_pct := pyRound2 (100 * (p.2 : ℚ) / (total_pages : ℚ))
      requests := requests
      pages := p.2 })

/-- `UsageAggregator._build_user_stats`. -/
def build_user_stats (s : AggState) : List UserStat :=
  (mostCommon s.user_pages).map (fun p =>
    let requests := cntGet p.1 s.user_requests
    let ppr : ℚ := if requests = 0 then 0 else (p.2 : ℚ) / (requests : ℚ)
    { user := p.1
      requests := requests
      pages := p.2
      pages_per_request := pyRound2 ppr })

/-- `UsageAggregator._build_bucket_section`. -/
def build_bucket_section (histogram : List (String × Int)) : List JobBucket :=
  if histogram = [] then []
  else
    let total := sumVals histogram
    sortBy (fun a b => !(decide (b.label < a.label)))
      (histogram.map (fun p =>
        { label := p.1
          pct_requests := pyRound2 (100 * (p.2 : ℚ) / (total : ℚ))
          request_count := p.2 }))

/-- `UsageAggregator._resolve_rate`. -/
def resolve_rate (s : AggState) (label queue : String) : ℚ :=
  match s.cost_label_rates.lookup (pyLower label) with
  | some r => r
  | none =>
    match s.cost_printer_rates.lookup (pyLower queue) with
    | some r => r
    | none => s.cost_default

/-- One iteration of the `_build_cost_stats` loop, threading the two
`defaultdict` maps (whose lookups may insert empty counters). -/
def cost_step (s : AggState)
    (acc : List CostStat × List (String × List (String × Int)) × List (String × List (String × Int)))
    (p : String × Int) :
    List CostStat × List (String × List (String × Int)) × List (String × List (String × Int)) :=
  let label := p.1
  let amountCqp :=
    if ¬ s.cost_default = 0 ∨ s.cost_printer_rates ≠ [] ∨ s.cost_label_rates ≠ [] then
      let g := ddGet label acc.2.2
      ((g.1.foldl (fun a q => a + (q.2 : ℚ) * resolve_rate s label q.1) 0 : ℚ), g.2)
    else ((0 : ℚ), acc.2.2)
  let gu := ddGet label acc.2.1
  let gq := ddGet label amountCqp.2
  (acc.1 ++ [{ label := label
               pages := p.2
               per_user := topItems gu.1
               per_queue := topItems gq.1
               amount := amountCqp.1 }],
   gu.2, gq.2)

/-- `UsageAggregator._build_cost_stats`. The `defaultdict` lookups may insert
empty counters, so the (possibly mutated) nested maps are returned too. -/
def build_cost_stats (s : AggState) :
    List CostStat × List (String × List (String × Int)) × List (String × List (String × Int)) :=
  (mostCommon s.cost_pages).foldl (cost_step s) ([], s.cost_user_pages, s.cost_queue_pages)

/-- `UsageAggregator._simple_stats`. -/
def simple_stats (counter : List (String × Int)) : List SimpleStat :=
  (mostCommon counter).map (fun p => { label := p.1, pages := p.2 })

/-- `UsageAggregator.build_report`. The second component is the state after
the call (only the `defaultdict` cost maps can differ). -/
def build_report (s : AggState) : AnalysisReport × AggState :=
  let queue_stats := build_queue_stats s
  let queue_user_stats :=
    sortBy (fun a b => decide (b.pages < a.pages ∨ (a.pages = b.pages ∧
        (a.queue < b.queue ∨ (a.queue = b.queue ∧ (a.user < b.user ∨ a.user = b.user))))))
      (s.queue_user_pages.map (fun p => { queue := p.1.1, user := p.1.2, pages := p.2 }))
  let user_stats := build_user_stats s
  let hourly := (sortStr (s.hourly.map (fun p => p.1))).map (fun h =>
    let hour_int := hourIntOf h
    { key := h
      requests := cntGet h s.hourly
      pages := cntGet h s.hourly_pages
      within_hours := some (decide (s.work_start ≤ hour_int ∧ hour_int ≤ s.work_end)) })
  let daily := (sortStr (s.daily.map (fun p => p.1))).map (fun d =>
    { key := d
      requests := cntGet d s.daily
      pages := cntGet d s.daily_pages
      within_hours := none })
  let cost := build_cost_stats s
  (⟨s.totals, queue_stats, queue_user_stats, user_stats, hourly, daily,
    build_bucket_section s.job_histogram, build_bucket_section s.copy_histogram,
    cost.1, simple_stats s.client_pages, simple_stats s.document_pages,
    simple_stats s.media_pages, simple_stats s.duplex_pages⟩,
   { s with cost_user_pages := cost.2.1, cost_queue_pages := cost.2.2 })

/-- Fold a record list into an aggregator state. -/
def stateOf (init : AggState) (l : List LogEntry) : AggState := l.foldl ingest init

/-- Merge of shard tallies per spec §5: counter-wise sum, min of earliest
timestamps, max of latest; configuration taken from the left shard. -/
def mergeAgg (a b : AggState) : AggState :=
  { a with
    totals :=
      { requests := a.totals.requests + b.totals.requests
        pages := a.totals.pages + b.totals.pages
        first_event :=
          match a.totals.first_event, b.totals.first_event with
          | none, y => y
          | some x, none => some x
          | some x, some y => if dtLt y x then some y else some x
        last_event :=
          match a.totals.last_event, b.totals.last_event with
          | none, y => y
          | some x, none => some x
          | some x, some y => if dtLt x y then some y else some x }
    queue_requests := cntMerge a.queue_requests b.queue_requests
    queue_pages := cntMerge a.queue_pages b.queue_pages
    queue_user_pages := cntMerge a.queue_user_pages b.queue_user_pages
    user_requests := cntMerge a.user_requests b.user_requests
    user_pages := cntMerge a.user_pages b.user_pages
    hourly := cntMerge a.hourly b.hourly
    hourly_pages := cntMerge a.hourly_pages b.hourly_pages
    daily := cntMerge a.daily b.daily
    daily_pages := cntMerge a.daily_pages b.daily_pages
    job_histogram := cntMerge a.job_histogram b.job_histogram
    copy_histogram := cntMerge a.copy_histogram b.copy_histogram
    cost_pages := cntMerge a.cost_pages b.cost_pages
    cost_user_pages := cnt2Merge a.cost_user_pages b.cost_user_pages
    cost_queue_pages := cnt2Merge a.cost_queue_pages b.cost_queue_pages
    client_pages := cntMerge a.client_pages b.client_pages
    document_pages := cntMerge a.document_pages b.document_pages
    media_pages := cntMerge a.media_pages b.media_pages
    duplex_pages := cntMerge a.duplex_pages b.duplex_pages }

/-! ## `printaudit.reporting.run_report` -/

/-- Aggregator-relevant fields of `printaudit.config.Config`, with the
dataclass defaults. -/
structure Config where
  work_start : Int := 7
  work_end : Int := 22
  cost_inference_rules : List (String × String) := []
  cost_default : ℚ := 0
  cost_printer_rates : List (String × ℚ) := []
  cost_label_rates : List (String × ℚ) := []

/-- The aggregator `run_report` actually constructs: only `cost_rules`,
`work_start` and `work_end` are passed; every other parameter is left at its
`UsageAggregator.__init__` default. -/
def run_report_aggregator (config : Config) : AggState :=
  mkAggregator config.cost_inference_rules config.work_start config.work_end

/-- Aggregator construction as spec §6 prescribes it: configuration supplies
cost inference rules, work hours, default cost rate and both rate tables. -/
def spec_section6_aggregator (config : Config) : AggState :=
  mkAggregator config.cost_inference_rules config.work_start config.work_end
    config.cost_default config.cost_printer_rates config.cost_label_rates

/-- `entry_date < start_date` on `(year, month, day)` triples. -/
def dateLtB (a b : Int × Int × Int) : Bool :=
  decide (a.1 < b.1 ∨ (a.1 = b.1 ∧ (a.2.1 < b.2.1 ∨ (a.2.1 = b.2.1 ∧ a.2.2 < b.2.2))))

def dateTriple (t : PyDateTime) : Int × Int × Int := (t.year, t.month, t.day)

/-- The analysis core of `reporting.run_report`: construct the aggregator,
ingest the date-filtered entries, build the report. -/
def run_report (config : Config) (entries : List LogEntry)
    (start_date end_date : Option (Int × Int × Int)) : AnalysisReport :=
  let filtered := entries.filter (fun e =>
    (match start_date with
     | none => true
     | some sd => !dateLtB (dateTriple e.timestamp) sd) &&
    (match end_date with
     | none => true
     | some ed => !dateLtB ed (dateTriple e.timestamp)))
  (build_report (stateOf (run_report_aggregator config) filtered)).1

/-! ## Counter lemmas -/

section CounterLemmas

variable {κ κ' : Type} [DecidableEq κ] [DecidableEq κ']

theorem cntGet_cntAdd (k k' : κ) (v : Int) : ∀ (c : List (κ × Int)),
    cntGet k (cntAdd k' v c) = if k' = k then cntGet k c + v else cntGet k c
  | [] => by
    by_cases h : k' = k <;> simp [cntAdd, cntGet, h]
  | (a, b) :: tl => by
    have ih := cntGet_cntAdd k k' v tl
    by_cases hak' : a = k'
    · subst hak'
      by_cases hk : a = k <;> simp [cntAdd, cntGet, hk]
    · by_cases hk : a = k
      · subst hk
        have hk'a : ¬ k' = a := fun h => hak' h.symm
        simp [cntAdd, cntGet, hak', hk'a]
      · simp [cntAdd, cntGet, hak', hk, ih]

theorem cnt2Get_cnt2Add (k k1 : κ) (k' k2 : κ') (v : Int) :
    ∀ (m : List (κ × List (κ' × Int))),
    cnt2Get k k' (cnt2Add k1 k2 v m) =
      if k1 = k ∧ k2 = k' then cnt2Get k k' m + v else cnt2Get k k' m
  | [] => by
    by_cases h1 : k1 = k <;> by_cases h2 : k2 = k' <;>
      simp [cnt2Add, cnt2Get, cntGet, cntAdd, h1, h2]
  | (a, c) :: tl => by
    have ih := cnt2Get_cnt2Add k k1 k' k2 v tl
    by_cases ha1 : a = k1
    · subst ha1
      by_cases hk : a = k
      · subst hk
        simp [cnt2Add, cnt2Get, cntGet_cntAdd]
      · simp [cnt2Add, cnt2Get, hk]
    · by_cases hk : a = k
      · subst hk
        have h1a : ¬ k1 = a := fun h => ha1 h.symm
        simp [cnt2Add, cnt2Get, ha1, h1a]
      · simp [cnt2Add, cnt2Get, ha1, hk, ih]

theorem sumVals_cntAdd (k : κ) (v : Int) : ∀ (c : List (κ × Int)),
    sumVals (cntAdd k v c) = sumVals c + v
  | [] => by simp [cntAdd, sumVals]
  | (a, b) :: tl => by
    have ih := sumVals_cntAdd k v tl
    by_cases h : a = k <;> simp [cntAdd, sumVals, h] at ih ⊢ <;> omega

/-- Key-presence in an association list. -/
def hasKey {α : Type} (k : κ) (m : List (κ × α)) : Prop := ∃ y, (k, y) ∈ m

theorem mem_cntAdd_keys {p : κ × Int} {k : κ} {v : Int} :
    ∀ {c : List (κ × Int)}, p ∈ cntAdd k v c → p.1 = k ∨ hasKey p.1 c
  | [], hp => by
    simp [cntAdd] at hp
    exact Or.inl (by simp [hp])
  | (x, b) :: tl, hp => by
    by_cases h : x = k
    · rcases (by simpa [cntAdd, h] using hp : p = (x, b + v) ∨ p ∈ tl) with h' | h'
      · exact Or.inl (by simp [h', h])
      · exact Or.inr ⟨p.2, by simp [h']⟩
    · rcases (by simpa [cntAdd, h] using hp : p = (x, b) ∨ p ∈ cntAdd k v tl) with h' | h'
      · exact Or.inr ⟨b, by simp [h']⟩
      · rcases mem_cntAdd_keys h' with h'' | ⟨y, hy⟩
        · exact Or.inl h''
        · exact Or.inr ⟨y, by simp [hy]⟩

theorem hasKey_cnt2Add_self (k1 : κ) (k2 : κ') (v : Int) :
    ∀ (m : List (κ × List (κ' × Int))), hasKey k1 (cnt2Add k1 k2 v m)
  | [] => ⟨cntAdd k2 v [], by simp [cnt2Add]⟩
  | (x, c) :: tl => by
    by_cases h : x = k1
    · exact ⟨cntAdd k2 v c, by simp [cnt2Add, h]⟩
    · obtain ⟨y, hy⟩ := hasKey_cnt2Add_self k1 k2 v tl
      exact ⟨y, by simp [cnt2Add, h, hy]⟩

theorem hasKey_cnt2Add_mono {a : κ} (k1 : κ) (k2 : κ') (v : Int) :
    ∀ {m : List (κ × List (κ' × Int))}, hasKey a m → hasKey a (cnt2Add k1 k2 v m)
  | [], h => by obtain ⟨y, hy⟩ := h; simp at hy
  | (x, c) :: tl, h => by
    by_cases hx : x = k1
    · obtain ⟨y, hy⟩ := h
      rcases (by simpa using hy : a = x ∧ y = c ∨ (a, y) ∈ tl) with ⟨h1, _⟩ | h'
      · exact ⟨cntAdd k2 v c, by simp [cnt2Add, hx, h1]⟩
      · exact ⟨y, by simp [cnt2Add, hx, h']⟩
    · obtain ⟨y, hy⟩ := h
      rcases (by simpa using hy : a = x ∧ y = c ∨ (a, y) ∈ tl) with ⟨h1, h2⟩ | h'
      · exact ⟨c, by simp [cnt2Add, hx, h1]⟩
      · obtain ⟨z, hz⟩ := hasKey_cnt2Add_mono k1 k2 v ⟨y, h'⟩
        exact ⟨z, by simp [cnt2Add, hx, hz]⟩

theorem ddGet_of_hasKey {k : κ} : ∀ {m : List (κ × List (κ' × Int))},
    hasKey k m → (ddGet k m).2 = m
  | [], h => by obtain ⟨y, hy⟩ := h; simp at hy
  | (x, y) :: tl, h => by
    by_cases hx : x = k
    · simp [ddGet, hx]
    · have htl : hasKey k tl := by
        obtain ⟨w, hw⟩ := h
        rcases (by simpa using hw : k = x ∧ w = y ∨ (k, w) ∈ tl) with ⟨h1, _⟩ | h'
        · exact absurd h1.symm hx
        · exact ⟨w, h'⟩
      simp [ddGet, hx, ddGet_of_hasKey htl]

theorem cntAdd_vals_nonneg {k : κ} {v : Int} (hv : 0 ≤ v) :
    ∀ {c : List (κ × Int)}, (∀ p ∈ c, 0 ≤ p.2) → ∀ p ∈ cntAdd k v c, 0 ≤ p.2
  | [], _ => by simpa [cntAdd] using hv
  | (a, b) :: tl, hc => by
    have hb : (0 : Int) ≤ b := hc (a, b) (by simp)
    have htl : ∀ p ∈ tl, (0 : Int) ≤ p.2 := fun p hp => hc p (by simp [hp])
    by_cases h : a = k
    · intro p hp
      rcases (by simpa [cntAdd, h] using hp : p = (a, b + v) ∨ p ∈ tl) with h' | h'
      · simp [h']; omega
      · exact htl p h'
    · intro p hp
      rcases (by simpa [cntAdd, h] using hp : p = (a, b) ∨ p ∈ cntAdd k v tl) with h' | h'
      · simp [h', hb]
      · exact cntAdd_vals_nonneg hv htl p h'

theorem sumVals_nonneg : ∀ {c : List (κ × Int)}, (∀ p ∈ c, 0 ≤ p.2) → 0 ≤ sumVals c
  | [], _ => by simp [sumVals]
  | (a, b) :: tl, hc => by
    have hb : (0 : Int) ≤ b := hc (a, b) (by simp)
    have htl : ∀ p ∈ tl, (0 : Int) ≤ p.2 := fun p hp => hc p (by simp [hp])
    have ih := sumVals_nonneg htl
    simp [sumVals] at ih ⊢
    omega

theorem cntGet_nonneg {k : κ} : ∀ {c : List (κ × Int)}, (∀ p ∈ c, 0 ≤ p.2) → 0 ≤ cntGet k c
  | [], _ => by simp [cntGet]
  | (a, b) :: tl, hc => by
    have hb : (0 : Int) ≤ b := hc (a, b) (by simp)
    have htl : ∀ p ∈ tl, (0 : Int) ≤ p.2 := fun p hp => hc p (by simp [hp])
    by_cases h : a = k
    · simpa [cntGet, h] using hb
    · simpa [cntGet, h] using cntGet_nonneg htl

theorem cntGet_le_sumVals {k : κ} : ∀ {c : List (κ × Int)},
    (∀ p ∈ c, 0 ≤ p.2) → cntGet k c ≤ sumVals c
  | [], _ => by simp [cntGet, sumVals]
  | (a, b) :: tl, hc => by
    have hb : (0 : Int) ≤ b := hc (a, b) (by simp)
    have htl : ∀ p ∈ tl, (0 : Int) ≤ p.2 := fun p hp => hc p (by simp [hp])
    have hsum := sumVals_nonneg htl
    have ih := cntGet_le_sumVals (k := k) htl
    have hget := cntGet_nonneg (k := k) htl
    by_cases h : a = k <;> simp [cntGet, sumVals, h] at * <;> omega

theorem mem_sumVals_le {p : κ × Int} : ∀ {c : List (κ × Int)},
    (∀ q ∈ c, 0 ≤ q.2) → p ∈ c → p.2 ≤ sumVals c
  | [], _, hp => by simp at hp
  | (a, b) :: tl, hc, hp => by
    have hb : (0 : Int) ≤ b := hc (a, b) (by simp)
    have htl : ∀ q ∈ tl, (0 : Int) ≤ q.2 := fun q hq => hc q (by simp [hq])
    have hsum := sumVals_nonneg htl
    rcases (by simpa using hp : p = (a, b) ∨ p ∈ tl) with h | h
    · subst h; simp [sumVals] at *; omega
    · have := mem_sumVals_le htl h
      simp [sumVals] at *
      omega

end CounterLemmas

/-! ## Sorting lemmas -/

section SortLemmas

variable {α : Type}

theorem perm_insertBy (le : α → α → Bool) (x : α) (l : List α) :
    List.Perm (insertBy le x l) (x :: l) := by
  induction l with
  | nil => simp [insertBy]
  | cons y ys ih =>
    by_cases h : le x y = true
    · simp [insertBy, h]
    · simp only [insertBy, h, Bool.false_eq_true, if_false]
      exact (ih.cons y).trans (List.Perm.swap x y ys)

theorem perm_sortBy (le : α → α → Bool) (l : List α) :
    List.Perm (sortBy le l) l := by
  induction l with
  | nil => simp [sortBy]
  | cons x xs ih =>
    exact (perm_insertBy le x (sortBy le xs)).trans (ih.cons x)

theorem mem_sortBy {le : α → α → Bool} {l : List α} {a : α} :
    a ∈ sortBy le l ↔ a ∈ l :=
  (perm_sortBy le l).mem_iff

theorem length_sortBy (le : α → α → Bool) (l : List α) :
    (sortBy le l).length = l.length :=
  (perm_sortBy le l).length_eq

theorem perm_mostCommon {κ : Type} (c : List (κ × Int)) :
    List.Perm (mostCommon c) c := perm_sortBy _ c

end SortLemmas

/-! ## Rounding lemmas -/

theorem roundHalfEven_ge_floor (x : ℚ) : ⌊x⌋ ≤ roundHalfEven x := by
  simp only [roundHalfEven]
  split_ifs <;> omega

theorem roundHalfEven_le_floor_add_one (x : ℚ) : roundHalfEven x ≤ ⌊x⌋ + 1 := by
  simp only [roundHalfEven]
  split_ifs <;> omega

theorem abs_roundHalfEven_sub (x : ℚ) : |(roundHalfEven x : ℚ) - x| ≤ 1/2 := by
  have hfl : (⌊x⌋ : ℚ) ≤ x := Int.floor_le x
  have hfu : x < ⌊x⌋ + 1 := Int.lt_floor_add_one x
  simp only [roundHalfEven]
  split_ifs with h1 h2 h3 <;> rw [abs_le] <;> constructor <;> push_cast at * <;> linarith

theorem abs_pyRound2_sub (x : ℚ) : |pyRound2 x - x| ≤ 1/200 := by
  have h := abs_roundHalfEven_sub (x * 100)
  have heq : pyRound2 x - x = ((roundHalfEven (x * 100) : ℚ) - x * 100) / 100 := by
    simp only [pyRound2]; ring
  rw [heq, abs_div, show |(100 : ℚ)| = 100 by norm_num]
  linarith

theorem pyRound2_nonneg {x : ℚ} (hx : 0 ≤ x) : 0 ≤ pyRound2 x := by
  have h : (0 : ℤ) ≤ ⌊x * 100⌋ := Int.floor_nonneg.2 (by positivity)
  have h2 := roundHalfEven_ge_floor (x * 100)
  have h3 : (0 : ℤ) ≤ roundHalfEven (x * 100) := le_trans h h2
  simp only [pyRound2]
  have : (0 : ℚ) ≤ (roundHalfEven (x * 100) : ℚ) := by exact_mod_cast h3
  positivity

theorem roundHalfEven_le_intCast {x : ℚ} {N : ℤ} (h : x ≤ (N : ℚ)) :
    roundHalfEven x ≤ N := by
  by_cases hf : ⌊x⌋ = N
  · have hNx : (N : ℚ) ≤ x := by rw [← hf]; exact Int.floor_le x
    have hxN : x = (N : ℚ) := le_antisymm h hNx
    have hfr : x - (⌊x⌋ : ℚ) < 1/2 := by
      rw [hxN, Int.floor_intCast]; norm_num
    simp only [roundHalfEven, hfr, if_pos]
    omega
  · have hle : ⌊x⌋ ≤ N := by
      have := Int.floor_le_floor h
      rwa [Int.floor_intCast] at this
    have hlt : ⌊x⌋ + 1 ≤ N := by omega
    have := roundHalfEven_le_floor_add_one x
    omega

theorem pyRound2_le_intCast {x : ℚ} {N : ℤ} (h : x ≤ (N : ℚ)) :
    pyRound2 x ≤ (N : ℚ) := by
  have h1 : x * 100 ≤ ((100 * N : ℤ) : ℚ) := by push_cast; linarith
  have h2 := roundHalfEven_le_intCast h1
  simp only [pyRound2]
  rw [div_le_iff₀ (by norm_num : (0:ℚ) < 100)]
  calc (roundHalfEven (x * 100) : ℚ) ≤ ((100 * N : ℤ) : ℚ) := by exact_mod_cast h2
    _ = (N : ℚ) * 100 := by push_cast; ring

/-! ## State invariants established by `ingest` -/

theorem stateOf_sum_queue_pages : ∀ (l : List LogEntry) (init : AggState),
    sumVals init.queue_pages = init.totals.pages →
    sumVals (stateOf init l).queue_pages = (stateOf init l).totals.pages
  | [], _, h => h
  | e :: l, init, h =>
    stateOf_sum_queue_pages l (ingest init e) (by simp [ingest, sumVals_cntAdd, h])

theorem stateOf_sum_queue_requests : ∀ (l : List LogEntry) (init : AggState),
    sumVals init.queue_requests = init.totals.requests →
    sumVals (stateOf init l).queue_requests = (stateOf init l).totals.requests
  | [], _, h => h
  | e :: l, init, h =>
    stateOf_sum_queue_requests l (ingest init e) (by simp [ingest, sumVals_cntAdd, h])

theorem stateOf_sum_job_histogram : ∀ (l : List LogEntry) (init : AggState),
    sumVals init.job_histogram = init.totals.requests →
    sumVals (stateOf init l).job_histogram = (stateOf init l).totals.requests
  | [], _, h => h
  | e :: l, init, h =>
    stateOf_sum_job_histogram l (ingest init e) (by simp [ingest, sumVals_cntAdd, h])

theorem stateOf_sum_copy_histogram : ∀ (l : List LogEntry) (init : AggState),
    sumVals init.copy_histogram = init.totals.requests →
    sumVals (stateOf init l).copy_histogram = (stateOf init l).totals.requests
  | [], _, h => h
  | e :: l, init, h =>
    stateOf_sum_copy_histogram l (ingest init e) (by simp [ingest, sumVals_cntAdd, h])

theorem stateOf_queue_pages_nonneg : ∀ (l : List LogEntry) (init : AggState),
    (∀ p ∈ init.queue_pages, 0 ≤ p.2) → (∀ e ∈ l, 0 ≤ e.pages) →
    ∀ p ∈ (stateOf init l).queue_pages, 0 ≤ p.2
  | [], _, h, _ => h
  | e :: l, init, h, hl =>
    stateOf_queue_pages_nonneg l (ingest init e)
      (by
        have he : (0 : Int) ≤ e.pages := hl e (by simp)
        simpa [ingest] using cntAdd_vals_nonneg he h)
      (fun e' he' => hl e' (by simp [he']))

theorem stateOf_queue_requests_nonneg : ∀ (l : List LogEntry) (init : AggState),
    (∀ p ∈ init.queue_requests, 0 ≤ p.2) →
    ∀ p ∈ (stateOf init l).queue_requests, 0 ≤ p.2
  | [], _, h => h
  | e :: l, init, h =>
    stateOf_queue_requests_nonneg l (ingest init e)
      (by simpa [ingest] using cntAdd_vals_nonneg (by norm_num) h)

/-- Every label counted in `cost_pages` has entries in both nested cost maps
(they are updated together by `ingest`). -/
def costKeysOk (s : AggState) : Prop :=
  ∀ p ∈ s.cost_pages, hasKey p.1 s.cost_user_pages ∧ hasKey p.1 s.cost_queue_pages

theorem ingest_costKeysOk {s : AggState} (h : costKeysOk s) (e : LogEntry) :
    costKeysOk (ingest s e) := by
  intro p hp
  have hp' : p ∈ cntAdd (costLabel s.cost_rules e) e.pages s.cost_pages := by
    simpa [ingest] using hp
  have hgoal :
      hasKey p.1 (cnt2Add (costLabel s.cost_rules e) e.user e.pages s.cost_user_pages) ∧
      hasKey p.1 (cnt2Add (costLabel s.cost_rules e) e.printer e.pages s.cost_queue_pages) := by
    rcases mem_cntAdd_keys hp' with h1 | ⟨y, hy⟩
    · rw [h1]
      exact ⟨hasKey_cnt2Add_self _ _ _ _, hasKey_cnt2Add_self _ _ _ _⟩
    · have := h (p.1, y) hy
      exact ⟨hasKey_cnt2Add_mono _ _ _ this.1, hasKey_cnt2Add_mono _ _ _ this.2⟩
  simpa [ingest] using hgoal

theorem stateOf_costKeysOk : ∀ (l : List LogEntry) (init : AggState),
    costKeysOk init → costKeysOk (stateOf init l)
  | [], _, h => h
  | e :: l, init, h => stateOf_costKeysOk l (ingest init e) (ingest_costKeysOk h e)

theorem cost_step_preserves (s : AggState)
    (acc : List CostStat) (cup cqp : List (String × List (String × Int)))
    (p : String × Int) (hu : hasKey p.1 cup) (hq : hasKey p.1 cqp) :
    ((cost_step s (acc, cup, cqp) p).2.1 = cup ∧ (cost_step s (acc, cup, cqp) p).2.2 = cqp) := by
  simp only [cost_step]
  split_ifs with hr
  · simp [ddGet_of_hasKey hu, ddGet_of_hasKey hq]
  · simp [ddGet_of_hasKey hu, ddGet_of_hasKey hq]

theorem foldl_cost_step_preserves (s : AggState)
    (cup cqp : List (String × List (String × Int))) :
    ∀ (L : List (String × Int)) (acc : List CostStat),
    (∀ p ∈ L, hasKey p.1 cup ∧ hasKey p.1 cqp) →
    ((L.foldl (cost_step s) (acc, cup, cqp)).2.1 = cup ∧
     (L.foldl (cost_step s) (acc, cup, cqp)).2.2 = cqp)
  | [], _, _ => ⟨rfl, rfl⟩
  | p :: L, acc, h => by
    have hp := h p (by simp)
    have hstep := cost_step_preserves s acc cup cqp p hp.1 hp.2
    have hL : ∀ q ∈ L, hasKey q.1 cup ∧ hasKey q.1 cqp := fun q hq => h q (by simp [hq])
    have heq : cost_step s (acc, cup, cqp) p =
        ((cost_step s (acc, cup, cqp) p).1, cup, cqp) := by
      ext1
      · rfl
      · rw [show ((cost_step s (acc, cup, cqp) p).1, cup, cqp).2 = (cup, cqp) from rfl]
        ext1
        · exact hstep.1
        · exact hstep.2
    rw [List.foldl_cons, heq]
    exact foldl_cost_step_preserves s cup cqp L _ hL

theorem build_cost_stats_preserves {s : AggState} (h : costKeysOk s) :
    (build_cost_stats s).2.1 = s.cost_user_pages ∧
    (build_cost_stats s).2.2 = s.cost_queue_pages := by
  apply foldl_cost_step_preserves
  intro p hp
  exact h p ((perm_mostCommon s.cost_pages).mem_iff.mp hp)

theorem orUnassigned_ne_empty (o : Option String) : orUnassigned o ≠ "" := by
  cases o with
  | none => simp [orUnassigned]
  | some b => by_cases h : b = "" <;> simp [orUnassigned, h]

/-- The resolved cost label is never the empty string. -/
theorem costLabel_ne_empty (rules : List (String × String)) (e : LogEntry) :
    costLabel rules e ≠ "" :=
  orUnassigned_ne_empty _

/-! ## Sample records used by concrete scenarios -/

def sampleTs : PyDateTime := ⟨2024, 1, 1, 10, 0, 0, 0⟩

def sampleEntry (q u : String) (pg cp : Int) : LogEntry :=
  { printer := q, user := u, job_id := 1, timestamp := sampleTs, pages := pg, copies := cp,
    billing_code := none, host := none, job_name := none, media := none, sides := none,
    raw := "" }

def sampleEntryBill (b : Option String) : LogEntry :=
  { printer := "Q", user := "u", job_id := 1, timestamp := sampleTs, pages := 5, copies := 1,
    billing_code := b, host := none, job_name := none, media := none, sides := none,
    raw := "" }

def c1_config : Config := { cost_default := 3 }

def c1_entry : LogEntry :=
  { printer := "Printer01", user := "alice", job_id := 12345,
    timestamp := ⟨2025, 4, 1, 9, 3, 11, -180⟩, pages := 10, copies := 1,
    billing_code := none, host := some "192.168.1.1", job_name := some "doc.pdf",
    media := none, sides := none, raw := "" }

/-! ## Claims -/

/-- C1: `reporting.run_report` constructs the aggregator without the
configuration's default cost rate and rate tables, so a configured default
rate is not reflected in the report: with `cost_default = 3` and a single
10-page record, the report of the code's pipeline carries amount 0, while the
aggregator built as spec §6 prescribes yields amount 30. -/
theorem cost_rates_not_wired :
    (run_report c1_config [c1_entry] none none).cost_stats =
      [{ label := "unassigned", pages := 10, per_user := [("alice", 10)],
         per_queue := [("Printer01", 10)], amount := 0 }] ∧
    ((build_report (stateOf (spec_section6_aggregator c1_config) [c1_entry])).1.cost_stats.map
      (fun c => (c.label, c.pages, c.amount))) = [("unassigned", 10, 30)] := by
  constructor
  · rfl
  · have h : ((build_report (stateOf (spec_section6_aggregator c1_config) [c1_entry])).1.cost_stats.map
        (fun c => (c.label, c.pages, c.amount))) =
        [("unassigned", 10, (0 : ℚ) + ((10 : Int) : ℚ) * 3)] := rfl
    rw [h]
    norm_num

/-- C2: a non-empty billing code is always the cost label (no inference rule
overrides it), and with no billing code and no matching inference rule the
label is exactly "unassigned". -/
theorem cost_label_precedence (rules : List (String × String)) (e : LogEntry) :
    (∀ b, e.billing_code = some b → b ≠ "" → costLabel rules e = b) ∧
    (e.billing_code = none → infer_billing rules e = none →
      costLabel rules e = "unassigned") := by
  constructor
  · intro b hb hne
    simp [costLabel, orUnassigned, hb, hne]
  · intro hb hi
    simp [costLabel, orUnassigned, hb, hi]

theorem cost_label_precedence_witness :
    costLabel [("lab", "doc")] (sampleEntryBill (some "ACCT1")) = "ACCT1" ∧
    costLabel [("lab", "zzz")] (sampleEntryBill none) = "unassigned" :=
  ⟨(cost_label_precedence [("lab", "doc")] _).1 "ACCT1" rfl (by decide),
   (cost_label_precedence [("lab", "zzz")] _).2 rfl (by decide)⟩

/-- C10: an empty-string billing code is treated exactly like an absent one:
the cost label is the one inference (or "unassigned") would give for the same
record without a billing code, and the empty string itself never becomes a
cost label. -/
theorem empty_billing_treated_as_absent (rules : List (String × String))
    (e : LogEntry) (h : e.billing_code = some "") :
    costLabel rules e = costLabel rules { e with billing_code := none } ∧
    costLabel rules e ≠ "" := by
  refine ⟨?_, costLabel_ne_empty rules e⟩
  have hinf : infer_billing rules { e with billing_code := none } = infer_billing rules e := rfl
  simp [costLabel, h, hinf]

theorem empty_billing_treated_as_absent_witness :
    costLabel [("lab", "zzz")] (sampleEntryBill (some "")) =
      costLabel [("lab", "zzz")] { sampleEntryBill (some "") with billing_code := none } ∧
    costLabel [("lab", "zzz")] (sampleEntryBill (some "")) ≠ "" :=
  ⟨(empty_billing_treated_as_absent [("lab", "zzz")] _ rfl).1,
   (empty_billing_treated_as_absent [("lab", "zzz")] _ rfl).2⟩

/-- C6: the round-trip scenario line parses to the specified record. -/
theorem roundtrip_scenario :
    parse_line "Printer01 alice 12345 [01/Apr/2025:09:03:11 -0300] total 5 - 192.168.1.1 doc.pdf - -" =
      some { printer := "Printer01", user := "alice", job_id := 12345,
             timestamp := ⟨2025, 4, 1, 9, 3, 11, -180⟩, pages := 5, copies := 1,
             billing_code := none, host := some "192.168.1.1", job_name := some "doc.pdf",
             media := none, sides := none,
             raw := "Printer01 alice 12345 [01/Apr/2025:09:03:11 -0300] total 5 - 192.168.1.1 doc.pdf - -" } := by
  decide

/-- C8: `build_report` leaves the tally state unchanged (including the
`defaultdict` cost maps), and a second call returns an identical report. -/
theorem build_report_idempotent (rules : List (String × String)) (ws we : Int)
    (cd : ℚ) (pr lr : List (String × ℚ)) (l : List LogEntry) :
    (build_report (stateOf (mkAggregator rules ws we cd pr lr) l)).2 =
      stateOf (mkAggregator rules ws we cd pr lr) l ∧
    (build_report ((build_report (stateOf (mkAggregator rules ws we cd pr lr) l)).2)).1 =
      (build_report (stateOf (mkAggregator rules ws we cd pr lr) l)).1 := by
  have hkeys : costKeysOk (stateOf (mkAggregator rules ws we cd pr lr) l) :=
    stateOf_costKeysOk l _ (by intro p hp; simp [mkAggregator] at hp)
  revert hkeys
  generalize stateOf (mkAggregator rules ws we cd pr lr) l = s
  intro hkeys
  have h := build_cost_stats_preserves hkeys
  have hdef : (build_report s).2 =
      { s with cost_user_pages := (build_cost_stats s).2.1
               cost_queue_pages := (build_cost_stats s).2.2 } := rfl
  have h1 : (build_report s).2 = s := by rw [hdef, h.1, h.2]
  exact ⟨h1, by rw [h1]⟩

/-- C3 counterexample: the parser accepts a standard-dialect payload with a
negative page count and a legacy payload with a zero copy count. -/
theorem record_invariants_counterexample :
    (parse_line "Q1 bob 1 [01/Jan/2024:00:00:00 +0000] total -5 - 192.168.1.1 doc.pdf - -").map
        (fun e => e.pages) = some (-5) ∧
    (parse_line "Q1 bob 1 [01/Jan/2024:00:00:00 +0000] 7 0 ACCT1").map
        (fun e => e.copies) = some 0 := by
  constructor <;> decide

/-- C4 counterexample: one ingested record with zero pages yields a non-empty
queue-stats list whose `pages_pct` values sum to 0, far outside the claimed
±0.1-per-entry tolerance around 100. -/
theorem queue_percentages_counterexample :
    (build_report (stateOf (mkAggregator) [sampleEntry "Q" "u" 0 1])).1.queue_stats ≠ [] ∧
    ¬ |(((build_report (stateOf (mkAggregator) [sampleEntry "Q" "u" 0 1])).1.queue_stats.map
          (fun q => q.pages_pct)).sum) - 100| ≤
        (((build_report (stateOf (mkAggregator) [sampleEntry "Q" "u" 0 1])).1.queue_stats.length : ℚ)) *
          (1/10) := by
  have hqs : (build_report (stateOf (mkAggregator) [sampleEntry "Q" "u" 0 1])).1.queue_stats =
      [{ queue := "Q",
         requests_pct := pyRound2 (100 * ((1 : Int) : ℚ) / ((1 : Int) : ℚ)),
         pages_pct := pyRound2 (100 * ((0 : Int) : ℚ) / ((1 : Int) : ℚ)),
         requests := 1, pages := 0 }] := rfl
  have hzero : pyRound2 (100 * ((0 : Int) : ℚ) / ((1 : Int) : ℚ)) = 0 := by
    norm_num [pyRound2, roundHalfEven]
  rw [hqs, hzero]
  norm_num

/-- C5 counterexample: two records with equal page counts on different queues
produce different reports depending on ingestion order (`Counter.most_common`
breaks ties by insertion order). -/
theorem shard_merge_counterexample :
    (build_report (stateOf (mkAggregator) [sampleEntry "Q1" "a" 5 1, sampleEntry "Q2" "b" 5 1])).1 ≠
    (build_report (stateOf (mkAggregator) [sampleEntry "Q2" "b" 5 1, sampleEntry "Q1" "a" 5 1])).1 := by
  intro h
  have h2 := congrArg (fun r => r.queue_stats.map (fun q => q.queue)) h
  have hl : (build_report (stateOf (mkAggregator)
      [sampleEntry "Q1" "a" 5 1, sampleEntry "Q2" "b" 5 1])).1.queue_stats.map
      (fun q => q.queue) = ["Q1", "Q2"] := by decide
  have hr : (build_report (stateOf (mkAggregator)
      [sampleEntry "Q2" "b" 5 1, sampleEntry "Q1" "a" 5 1])).1.queue_stats.map
      (fun q => q.queue) = ["Q2", "Q1"] := by decide
  simp only [hl, hr] at h2
  exact absurd h2 (by decide)

/-- C7 counterexample: a payload whose first token is numeric and which has
three tokens still raises a parse error when the second token is not an
integer literal. -/
theorem legacy_dialect_counterexample :
    isDigits ((pySplit "7 x ACCT").headD "") = true ∧
    (pySplit "7 x ACCT").length = 3 ∧
    parse_rest "7 x ACCT" = none := by
  refine ⟨by decide, by decide, by rfl⟩

/-- C9 counterexample: a record with a negative page count (or a zero copy
count) lands in the synthetic "other" histogram key, which is not a label of
the fixed bucket tables. -/
theorem bucket_coverage_counterexample :
    (stateOf (mkAggregator) [sampleEntry "Q" "u" (-1) 1]).job_histogram = [("other", 1)] ∧
    "other" ∉ JOB_BUCKETS.map (fun b => b.2.2) ∧
    (stateOf (mkAggregator) [sampleEntry "Q" "u" 3 0]).copy_histogram = [("other", 1)] ∧
    "other" ∉ COPY_BUCKETS.map (fun b => b.2.2) := by
  refine ⟨by decide, by decide, by decide, by decide⟩

/-- The combined skip test of one `_bucketize` iteration. -/
def skipB (v : Int) (b : Option Int × Option Int × String) : Bool :=
  lowSkip v b.1 || highSkip v b.2.1

theorem bucketizeAux_step_skip {v : Int} {b : Option Int × Option Int × String}
    {bs : List (Option Int × Option Int × String)} (h : skipB v b = true) :
    bucketizeAux v (b :: bs) = bucketizeAux v bs := by
  obtain ⟨low, high, label⟩ := b
  by_cases h1 : lowSkip v low = true
  · simp only [bucketizeAux, h1, if_true]
  · have h2 : highSkip v high = true := by
      simp only [skipB, Bool.or_eq_true] at h
      exact h.resolve_left h1
    simp only [bucketizeAux, h1, h2, if_true, Bool.false_eq_true, ite_false]

theorem bucketizeAux_step_hit {v : Int} {b : Option Int × Option Int × String}
    {bs : List (Option Int × Option Int × String)} (h : skipB v b = false) :
    bucketizeAux v (b :: bs) = some b.2.2 := by
  obtain ⟨low, high, label⟩ := b
  simp only [skipB, Bool.or_eq_false_iff] at h
  simp only [bucketizeAux, h.1, h.2, Bool.false_eq_true, ite_false]

theorem bucketizeAux_mem {v : Int} {l : String} :
    ∀ (bs : List (Option Int × Option Int × String)),
    bucketizeAux v bs = some l → l ∈ bs.map (fun b => b.2.2)
  | [], h => by simp [bucketizeAux] at h
  | (low, high, label) :: bs, h => by
    by_cases h1 : lowSkip v low = true
    · simp only [bucketizeAux, h1, if_true] at h
      simp [bucketizeAux_mem bs h]
    · by_cases h2 : highSkip v high = true
      · simp only [bucketizeAux, h1, h2, if_true, Bool.false_eq_true, ite_false] at h
        simp [bucketizeAux_mem bs h]
      · simp only [bucketizeAux, h1, h2, Bool.false_eq_true, ite_false] at h
        simp [← Option.some.injEq _ _ |>.mp h]

theorem job_bucketizeAux_some (v : Int) (hv : 0 ≤ v) :
    ∃ l, bucketizeAux v JOB_BUCKETS = some l := by
  rw [← Option.isSome_iff_exists]
  have h : v ≤ 10 ∨ (11 ≤ v ∧ v ≤ 20) ∨ (21 ≤ v ∧ v ≤ 30) ∨ (31 ≤ v ∧ v ≤ 40) ∨
      (41 ≤ v ∧ v ≤ 50) ∨ (51 ≤ v ∧ v ≤ 100) ∨ (101 ≤ v ∧ v ≤ 200) ∨ 201 ≤ v := by omega
  rcases h with h | h | h | h | h | h | h | h <;>
    simp only [JOB_BUCKETS] <;>
    (repeat rw [bucketizeAux_step_skip (by simp [skipB, lowSkip, highSkip]; omega)]) <;>
    rw [bucketizeAux_step_hit (by simp [skipB, lowSkip, highSkip]; omega)] <;> rfl

theorem copy_bucketizeAux_some (v : Int) (hv : 1 ≤ v) :
    ∃ l, bucketizeAux v COPY_BUCKETS = some l := by
  rw [← Option.isSome_iff_exists]
  have h : v = 1 ∨ v = 2 ∨ v = 3 ∨ v = 4 ∨ (5 ≤ v ∧ v ≤ 10) ∨ (11 ≤ v ∧ v ≤ 20) ∨
      (21 ≤ v ∧ v ≤ 30) ∨ (31 ≤ v ∧ v ≤ 40) ∨ (41 ≤ v ∧ v ≤ 50) ∨
      (51 ≤ v ∧ v ≤ 100) ∨ 101 ≤ v := by omega
  rcases h with h | h | h | h | h | h | h | h | h | h | h <;>
    simp only [COPY_BUCKETS] <;>
    (repeat rw [bucketizeAux_step_skip (by simp [skipB, lowSkip, highSkip]; omega)]) <;>
    rw [bucketizeAux_step_hit (by simp [skipB, lowSkip, highSkip]; omega)] <;> rfl

/-- C7 (amended): for every payload whose first whitespace token is purely
numeric, parsing fails iff the payload has fewer than 3 tokens or the second
token is not an integer literal; otherwise exactly the first three tokens are
consumed (pages, copies, billing with placeholder normalization), the
remaining fields absent and extra tokens ignored; and the concrete legacy
scenario line parses to pages 7, copies 2, billing ACCT1. -/
theorem legacy_dialect_behavior (rest t0 : String) (ts : List String)
    (hsplit : pySplit rest = t0 :: ts) (hdig : isDigits t0 = true) :
    (parse_rest rest = none ↔ ts.length < 2 ∨ pyToInt? (ts.headD "") = none) ∧
    (∀ t1 t2 rest2, ts = t1 :: t2 :: rest2 → ∀ c, pyToInt? t1 = some c →
      parse_rest rest = some ((digitsToNat t0 : Int), c, normalize_billing t2,
        none, none, none, none)) ∧
    parse_line "Q1 bob 1 [01/Jan/2024:00:00:00 +0000] 7 2 ACCT1" =
      some { printer := "Q1", user := "bob", job_id := 1,
             timestamp := ⟨2024, 1, 1, 0, 0, 0, 0⟩, pages := 7, copies := 2,
             billing_code := some "ACCT1", host := none, job_name := none,
             media := none, sides := none,
             raw := "Q1 bob 1 [01/Jan/2024:00:00:00 +0000] 7 2 ACCT1" } := by
  have hne : rest ≠ "" := by
    intro h
    rw [h] at hsplit
    simp [pySplit, splitPred] at hsplit
  have hpr : parse_rest rest = legacy_payload t0 ts := by
    simp [parse_rest, hsplit, hne, hdig]
  refine ⟨?_, ?_, by decide⟩
  · rcases ts with _ | ⟨t1, _ | ⟨t2, r2⟩⟩
    · simp [hpr, legacy_payload]
    · simp [hpr, legacy_payload]
    · rcases h1 : pyToInt? t1 with _ | c
      · simp [hpr, legacy_payload, h1]
      · simp [hpr, legacy_payload, h1]
  · intro t1 t2 rest2 hts c hc
    subst hts
    simp [hpr, legacy_payload, hc]

theorem legacy_dialect_behavior_witness :
    parse_rest "7 2 ACCT1" =
      some ((7 : Int), 2, some "ACCT1", none, none, none, none) :=
  ((legacy_dialect_behavior "7 2 ACCT1" "7" ["2", "ACCT1"] (by decide)
      (by decide)).2.1) "2" "ACCT1" [] rfl 2 (by decide)

/-- C9 (amended): every non-negative page count maps to exactly one label of
the fixed job-size table and every positive copy count to exactly one label
of the fixed copy-size table (first match in order; values outside fall into
the synthetic "other" key), and for any run the sum of request counts over
each histogram's entries equals the total request count. -/
theorem bucket_coverage :
    (∀ v : Int, 0 ≤ v → bucketize v JOB_BUCKETS ∈ JOB_BUCKETS.map (fun b => b.2.2)) ∧
    (∀ v : Int, 1 ≤ v → bucketize v COPY_BUCKETS ∈ COPY_BUCKETS.map (fun b => b.2.2)) ∧
    (∀ (rules : List (String × String)) (ws we : Int) (cd : ℚ)
       (pr lr : List (String × ℚ)) (l : List LogEntry),
      sumVals (stateOf (mkAggregator rules ws we cd pr lr) l).job_histogram =
        (stateOf (mkAggregator rules ws we cd pr lr) l).totals.requests ∧
      sumVals (stateOf (mkAggregator rules ws we cd pr lr) l).copy_histogram =
        (stateOf (mkAggregator rules ws we cd pr lr) l).totals.requests) := by
  refine ⟨?_, ?_, ?_⟩
  · intro v hv
    obtain ⟨l, hl⟩ := job_bucketizeAux_some v hv
    rw [bucketize, hl]
    exact bucketizeAux_mem JOB_BUCKETS hl
  · intro v hv
    obtain ⟨l, hl⟩ := copy_bucketizeAux_some v hv
    rw [bucketize, hl]
    exact bucketizeAux_mem COPY_BUCKETS hl
  · intro rules ws we cd pr lr l
    exact ⟨stateOf_sum_job_histogram l _ (by simp [mkAggregator, sumVals]),
           stateOf_sum_copy_histogram l _ (by simp [mkAggregator, sumVals])⟩

theorem bucket_coverage_witness :
    bucketize 55 JOB_BUCKETS ∈ JOB_BUCKETS.map (fun b => b.2.2) ∧
    bucketize 55 COPY_BUCKETS ∈ COPY_BUCKETS.map (fun b => b.2.2) ∧
    sumVals (stateOf (mkAggregator) [sampleEntry "Q" "u" 5 1]).job_histogram =
      (stateOf (mkAggregator) [sampleEntry "Q" "u" 5 1]).totals.requests :=
  ⟨bucket_coverage.1 55 (by decide),
   bucket_coverage.2.1 55 (by decide),
   (bucket_coverage.2.2 [] 7 22 0 [] [] [sampleEntry "Q" "u" 5 1]).1⟩

/-! ## C3: parser field invariants -/

theorem trimChars_idem (l : List Char) : trimChars (trimChars l) = trimChars l := by
  have htc : ∀ x : List Char, trimChars x =
      List.rdropWhile Char.isWhitespace (x.dropWhile Char.isWhitespace) := fun _ => rfl
  rw [htc, htc]
  have hfix : List.dropWhile Char.isWhitespace (l.dropWhile Char.isWhitespace) =
      l.dropWhile Char.isWhitespace := List.dropWhile_idempotent _ _
  have hR : List.dropWhile Char.isWhitespace
      (List.rdropWhile Char.isWhitespace (l.dropWhile Char.isWhitespace)) =
      List.rdropWhile Char.isWhitespace (l.dropWhile Char.isWhitespace) := by
    obtain ⟨t, ht⟩ : List.rdropWhile Char.isWhitespace (l.dropWhile Char.isWhitespace) <+:
        l.dropWhile Char.isWhitespace := List.rdropWhile_prefix _ _
    rcases hc : List.rdropWhile Char.isWhitespace (l.dropWhile Char.isWhitespace) with _ | ⟨a, r⟩
    · simp
    · rw [hc] at ht
      have hpa : Char.isWhitespace a = false := by
        by_contra hp2
        have hpa' : Char.isWhitespace a = true := by simpa using hp2
        have hshort : List.dropWhile Char.isWhitespace (l.dropWhile Char.isWhitespace) =
            List.dropWhile Char.isWhitespace (r ++ t) := by
          rw [← ht]
          simp [List.dropWhile_cons, hpa']
        have hlen := congrArg List.length (hfix.symm.trans hshort)
        have hle := (List.dropWhile_suffix (l := r ++ t) Char.isWhitespace).length_le
        rw [← ht] at hlen
        simp at hlen hle
        omega
      simp [List.dropWhile_cons, hpa]
  rw [hR, List.rdropWhile_idempotent]

theorem pyStrip_idem (s : String) : pyStrip (pyStrip s) = pyStrip s :=
  congrArg (fun l : List Char => (⟨l⟩ : String)) (trimChars_idem s.toList)

/-- The record invariant for optional fields: absent, or a non-empty string
fixed by stripping. -/
def optOk (o : Option String) : Prop := ∀ s, o = some s → s ≠ "" ∧ pyStrip s = s

theorem optOk_none : optOk none := fun s h => by simp at h

theorem normalize_optional_spec {v s : String} (h : normalize_optional v = some s) :
    s ≠ "" ∧ pyStrip s = s := by
  simp only [normalize_optional] at h
  split_ifs at h with hc
  push_neg at hc
  have hs : pyStrip v = s := by simpa using h
  subst hs
  exact ⟨hc.1, pyStrip_idem v⟩

theorem optOk_normalize_optional (v : String) : optOk (normalize_optional v) :=
  fun _ h => normalize_optional_spec h

theorem optOk_normalize_billing (v : String) : optOk (normalize_billing v) := by
  intro s h
  simp only [normalize_billing] at h
  rcases ho : normalize_optional v with _ | t
  · rw [ho] at h; simp at h
  · rw [ho] at h
    by_cases ht : t = "-none-"
    · simp [ht] at h
    · simp only [ht, if_false, Bool.false_eq_true, ite_false] at h
      obtain rfl : t = s := by simpa using h
      exact normalize_optional_spec ho

theorem legacy_payload_fields {t0 : String} {ts : List String} {pg cp : Int}
    {b h j m sd : Option String}
    (hp : legacy_payload t0 ts = some (pg, cp, b, h, j, m, sd)) :
    (0 ≤ pg ∨ cp = 1) ∧ optOk b ∧ optOk h ∧ optOk j ∧ optOk m ∧ optOk sd := by
  rcases ts with _ | ⟨t1, _ | ⟨t2, r⟩⟩
  · simp [legacy_payload] at hp
  · simp [legacy_payload] at hp
  · rcases hto : pyToInt? t1 with _ | c
    · simp [legacy_payload, hto] at hp
    · simp only [legacy_payload, hto, Option.some.injEq, Prod.mk.injEq] at hp
      obtain ⟨h1, h2, h3, h4, h5, h6, h7⟩ := hp
      refine ⟨Or.inl ?_, ?_, ?_, ?_, ?_, ?_⟩
      · rw [← h1]; exact Int.natCast_nonneg _
      · rw [← h3]; exact optOk_normalize_billing t2
      · rw [← h4]; exact optOk_none
      · rw [← h5]; exact optOk_none
      · rw [← h6]; exact optOk_none
      · rw [← h7]; exact optOk_none

theorem default_payload_fields {t0 : String} {ts : List String} {pg cp : Int}
    {b h j m sd : Option String}
    (hp : default_payload t0 ts = some (pg, cp, b, h, j, m, sd)) :
    (0 ≤ pg ∨ cp = 1) ∧ optOk b ∧ optOk h ∧ optOk j ∧ optOk m ∧ optOk sd := by
  rcases ts with _ | ⟨t1, _ | ⟨t2, rem⟩⟩
  · simp [default_payload] at hp
  · simp [default_payload] at hp
  · rcases hto : pyToInt? t1 with _ | pages
    · simp [default_payload, hto] at hp
    · simp only [default_payload, hto] at hp
      by_cases hk : (pyLower t0 ≠ "total" ∧ pyLower t0 ≠ "page")
      · rw [if_pos hk] at hp; simp at hp
      · rw [if_neg hk] at hp
        by_cases hrem : rem = []
        · rw [if_pos hrem] at hp; simp at hp
        · rw [if_neg hrem] at hp
          by_cases hlen : rem.length < 3
          · rw [if_pos hlen] at hp; simp at hp
          · rw [if_neg hlen] at hp
            simp only [Option.some.injEq, Prod.mk.injEq] at hp
            obtain ⟨h1, h2, h3, h4, h5, h6, h7⟩ := hp
            refine ⟨Or.inr h2.symm, ?_, ?_, ?_, ?_, ?_⟩
            · rw [← h3]; exact optOk_normalize_billing t2
            · rw [← h4]; exact optOk_normalize_optional _
            · rw [← h5]
              split_ifs
              · exact optOk_normalize_optional _
              · exact optOk_none
            · rw [← h6]; exact optOk_normalize_optional _
            · rw [← h7]; exact optOk_normalize_optional _

theorem parse_rest_fields {rest : String} {pg cp : Int} {b h j m sd : Option String}
    (hp : parse_rest rest = some (pg, cp, b, h, j, m, sd)) :
    (0 ≤ pg ∨ cp = 1) ∧ optOk b ∧ optOk h ∧ optOk j ∧ optOk m ∧ optOk sd := by
  rw [parse_rest] at hp
  by_cases h0 : rest = ""
  · rw [if_pos h0] at hp; simp at hp
  · rw [if_neg h0] at hp
    rcases hs : pySplit rest with _ | ⟨t0, ts⟩
    · rw [hs] at hp; simp at hp
    · rw [hs] at hp
      simp only [] at hp
      by_cases hd : isDigits t0 = true
      · rw [if_pos hd] at hp
        exact legacy_payload_fields hp
      · rw [if_neg hd] at hp
        exact default_payload_fields hp

/-- C3 (amended): every accepted line yields a record whose page count is
non-negative in the legacy dialect and whose copy count is 1 in the standard
dialect (so always `0 ≤ pages ∨ copies = 1`; Python `int()` lets the other
count be negative or zero), and whose optional fields are each absent or a
non-empty stripped string — never the empty string. -/
theorem record_field_invariants (line : String) (e : LogEntry)
    (hl : parse_line line = some e) :
    (0 ≤ e.pages ∨ e.copies = 1) ∧ optOk e.billing_code ∧ optOk e.host ∧
    optOk e.job_name ∧ optOk e.media ∧ optOk e.sides := by
  rw [parse_line] at hl
  rcases hh : parse_header line with _ | ⟨printerS, userS, jobS, tsS, restS⟩
  · rw [hh] at hl; simp at hl
  · rw [hh] at hl
    simp only [] at hl
    rcases ht : parseTimestamp tsS with _ | ts
    · rw [ht] at hl; simp at hl
    · rw [ht] at hl
      simp only [] at hl
      rcases hr : parse_rest restS with _ | ⟨pg, cp, b, ho, j, m, sd⟩
      · rw [hr] at hl; simp at hl
      · rw [hr] at hl
        simp only [Option.some.injEq] at hl
        rw [← hl]
        exact parse_rest_fields hr

theorem record_field_invariants_witness :
    ((0 : Int) ≤ 5 ∨ (1 : Int) = 1) ∧ optOk none ∧ optOk (some "192.168.1.1") ∧
    optOk (some "doc.pdf") ∧ optOk none ∧ optOk none :=
  record_field_invariants
    "Printer01 alice 12345 [01/Apr/2025:09:03:11 -0300] total 5 - 192.168.1.1 doc.pdf - -"
    { printer := "Printer01", user := "alice", job_id := 12345,
      timestamp := ⟨2025, 4, 1, 9, 3, 11, -180⟩, pages := 5, copies := 1,
      billing_code := none, host := some "192.168.1.1", job_name := some "doc.pdf",
      media := none, sides := none,
      raw := "Printer01 alice 12345 [01/Apr/2025:09:03:11 -0300] total 5 - 192.168.1.1 doc.pdf - -" }
    (by decide)

/-! ## C4: queue percentage bounds -/

theorem castSumVals {κ : Type} (c : List (κ × Int)) :
    ((sumVals c : Int) : ℚ) = (c.map (fun p => (p.2 : ℚ))).sum := by
  simp only [sumVals, Int.cast_list_sum, List.map_map]
  rfl

theorem sum_pyRound2_bound {α : Type} (g : α → ℚ) : ∀ (L : List α),
    |(L.map (fun p => pyRound2 (g p))).sum - (L.map g).sum| ≤ (L.length : ℚ) * (1/200)
  | [] => by simp
  | p :: L => by
    have ih := sum_pyRound2_bound g L
    have hp := abs_pyRound2_sub (g p)
    simp only [List.map_cons, List.sum_cons, List.length_cons]
    have heq : pyRound2 (g p) + (L.map (fun q => pyRound2 (g q))).sum -
        (g p + (L.map g).sum) =
        (pyRound2 (g p) - g p) +
          ((L.map (fun q => pyRound2 (g q))).sum - (L.map g).sum) := by ring
    rw [heq]
    calc |(pyRound2 (g p) - g p) +
          ((L.map (fun q => pyRound2 (g q))).sum - (L.map g).sum)| ≤
          |pyRound2 (g p) - g p| +
            |(L.map (fun q => pyRound2 (g q))).sum - (L.map g).sum| := abs_add _ _
      _ ≤ 1/200 + (L.length : ℚ) * (1/200) := add_le_add hp ih
      _ = ((L.length + 1 : ℕ) : ℚ) * (1/200) := by push_cast; ring

/-- Core facts about `_build_queue_stats` under the tally invariants. -/
theorem queue_stats_props (s : AggState)
    (h1 : sumVals s.queue_pages = s.totals.pages)
    (h2 : sumVals s.queue_requests = s.totals.requests)
    (h3 : ∀ p ∈ s.queue_pages, 0 ≤ p.2)
    (h4 : ∀ p ∈ s.queue_requests, 0 ≤ p.2)
    (hpos : 0 < s.totals.pages) :
    |((build_queue_stats s).map (fun q => q.pages_pct)).sum - 100| ≤
      ((build_queue_stats s).length : ℚ) * (1/10) ∧
    ∀ q ∈ build_queue_stats s, 0 ≤ q.requests_pct ∧ q.requests_pct ≤ 100 ∧
      0 ≤ q.pages_pct ∧ q.pages_pct ≤ 100 := by
  have hTp : max s.totals.pages 1 = s.totals.pages := max_eq_left (by omega)
  have hq : build_queue_stats s = (mostCommon s.queue_pages).map (fun p =>
      { queue := p.1
        requests_pct := pyRound2 (100 * ((cntGet p.1 s.queue_requests : Int) : ℚ) /
          ((max s.totals.requests 1 : Int) : ℚ))
        pages_pct := pyRound2 (100 * ((p.2 : Int) : ℚ) / ((max s.totals.pages 1 : Int) : ℚ))
        requests := cntGet p.1 s.queue_requests
        pages := p.2 }) := rfl
  have hpq : (0 : ℚ) < ((s.totals.pages : Int) : ℚ) := by
    exact_mod_cast hpos
  constructor
  · rw [hq, List.map_map]
    have hcomp : ((fun q : QueueStat => q.pages_pct) ∘ (fun p : String × Int =>
        ({ queue := p.1
           requests_pct := pyRound2 (100 * ((cntGet p.1 s.queue_requests : Int) : ℚ) /
             ((max s.totals.requests 1 : Int) : ℚ))
           pages_pct := pyRound2 (100 * ((p.2 : Int) : ℚ) / ((max s.totals.pages 1 : Int) : ℚ))
           requests := cntGet p.1 s.queue_requests
           pages := p.2 } : QueueStat))) =
        fun p : String × Int =>
          pyRound2 (100 * ((p.2 : Int) : ℚ) / ((max s.totals.pages 1 : Int) : ℚ)) := rfl
    rw [hcomp]
    have hsum100 : ((mostCommon s.queue_pages).map (fun p : String × Int =>
        100 * ((p.2 : Int) : ℚ) / ((max s.totals.pages 1 : Int) : ℚ))).sum = 100 := by
      rw [hTp]
      rw [List.map_congr_left (fun p _ => by ring :
        ∀ p ∈ mostCommon s.queue_pages, 100 * ((p.2 : Int) : ℚ) / ((s.totals.pages : Int) : ℚ) =
          (100 / ((s.totals.pages : Int) : ℚ)) * ((p.2 : Int) : ℚ))]
      rw [List.sum_map_mul_left]
      have hperm : sumVals (mostCommon s.queue_pages) = sumVals s.queue_pages :=
        List.Perm.sum_eq ((perm_mostCommon s.queue_pages).map (fun p => p.2))
      rw [← castSumVals, hperm, h1]
      exact div_mul_cancel₀ 100 (ne_of_gt hpq)
    have hbound := sum_pyRound2_bound (fun p : String × Int =>
      100 * ((p.2 : Int) : ℚ) / ((max s.totals.pages 1 : Int) : ℚ)) (mostCommon s.queue_pages)
    rw [hsum100] at hbound
    simp only [List.length_map]
    calc |((mostCommon s.queue_pages).map (fun p : String × Int =>
          pyRound2 (100 * ((p.2 : Int) : ℚ) / ((max s.totals.pages 1 : Int) : ℚ)))).sum - 100| ≤
          ((mostCommon s.queue_pages).length : ℚ) * (1/200) := hbound
      _ ≤ ((mostCommon s.queue_pages).length : ℚ) * (1/10) := by
          apply mul_le_mul_of_nonneg_left (by norm_num) (by positivity)
  · intro q hq2
    rw [hq] at hq2
    obtain ⟨p, hp, rfl⟩ := List.mem_map.mp hq2
    have hpmem : p ∈ s.queue_pages := (perm_mostCommon s.queue_pages).mem_iff.mp hp
    have hR0 : (0 : Int) ≤ cntGet p.1 s.queue_requests := cntGet_nonneg h4
    have hRle : cntGet p.1 s.queue_requests ≤ max s.totals.requests 1 := by
      have := cntGet_le_sumVals (k := p.1) h4
      rw [h2] at this
      exact le_trans this (le_max_left _ _)
    have hMr : (0 : ℚ) < ((max s.totals.requests 1 : Int) : ℚ) := by
      have : (0 : Int) < max s.totals.requests 1 := by omega
      exact_mod_cast this
    have hP0 : (0 : Int) ≤ p.2 := h3 p hpmem
    have hPle : p.2 ≤ max s.totals.pages 1 := by
      have := mem_sumVals_le h3 hpmem
      rw [h1] at this
      exact le_trans this (le_max_left _ _)
    have hMp : (0 : ℚ) < ((max s.totals.pages 1 : Int) : ℚ) := by
      have : (0 : Int) < max s.totals.pages 1 := by omega
      exact_mod_cast this
    have hxr0 : (0 : ℚ) ≤ 100 * ((cntGet p.1 s.queue_requests : Int) : ℚ) /
        ((max s.totals.requests 1 : Int) : ℚ) := by
      apply div_nonneg _ (le_of_lt hMr)
      have : (0 : ℚ) ≤ ((cntGet p.1 s.queue_requests : Int) : ℚ) := by exact_mod_cast hR0
      exact mul_nonneg (by norm_num) this
    have hxr100 : 100 * ((cntGet p.1 s.queue_requests : Int) : ℚ) /
        ((max s.totals.requests 1 : Int) : ℚ) ≤ ((100 : ℤ) : ℚ) := by
      rw [div_le_iff₀ hMr]
      have hc : ((cntGet p.1 s.queue_requests : Int) : ℚ) ≤
          ((max s.totals.requests 1 : Int) : ℚ) := by exact_mod_cast hRle
      rw [show ((100 : ℤ) : ℚ) = 100 from by norm_num]
      linarith
    have hxp0 : (0 : ℚ) ≤ 100 * ((p.2 : Int) : ℚ) / ((max s.totals.pages 1 : Int) : ℚ) := by
      apply div_nonneg _ (le_of_lt hMp)
      have : (0 : ℚ) ≤ ((p.2 : Int) : ℚ) := by exact_mod_cast hP0
      exact mul_nonneg (by norm_num) this
    have hxp100 : 100 * ((p.2 : Int) : ℚ) / ((max s.totals.pages 1 : Int) : ℚ) ≤
        ((100 : ℤ) : ℚ) := by
      rw [div_le_iff₀ hMp]
      have hc : ((p.2 : Int) : ℚ) ≤ ((max s.totals.pages 1 : Int) : ℚ) := by
        exact_mod_cast hPle
      rw [show ((100 : ℤ) : ℚ) = 100 from by norm_num]
      linarith
    refine ⟨pyRound2_nonneg hxr0, ?_, pyRound2_nonneg hxp0, ?_⟩
    · have := pyRound2_le_intCast hxr100
      simpa using this
    · have := pyRound2_le_intCast hxp100
      simpa using this

/-- C4 (amended): when every ingested record has a non-negative page count and
the total page count is positive, the `pages_pct` values of the queue stats
sum to 100 within the claimed 0.1-per-entry tolerance, and every
`requests_pct` and `pages_pct` lies in [0, 100]. -/
theorem queue_percentages (rules : List (String × String)) (ws we : Int) (cd : ℚ)
    (pr lr : List (String × ℚ)) (l : List LogEntry)
    (hpg : ∀ e ∈ l, 0 ≤ e.pages)
    (hpos : 0 < (stateOf (mkAggregator rules ws we cd pr lr) l).totals.pages) :
    |(((build_report (stateOf (mkAggregator rules ws we cd pr lr) l)).1.queue_stats.map
        (fun q => q.pages_pct)).sum) - 100| ≤
      (((build_report (stateOf (mkAggregator rules ws we cd pr lr) l)).1.queue_stats.length : ℚ)) *
        (1/10) ∧
    ∀ q ∈ (build_report (stateOf (mkAggregator rules ws we cd pr lr) l)).1.queue_stats,
      0 ≤ q.requests_pct ∧ q.requests_pct ≤ 100 ∧ 0 ≤ q.pages_pct ∧ q.pages_pct ≤ 100 :=
  queue_stats_props (stateOf (mkAggregator rules ws we cd pr lr) l)
    (stateOf_sum_queue_pages l (mkAggregator rules ws we cd pr lr)
      (by simp [mkAggregator, sumVals]))
    (stateOf_sum_queue_requests l (mkAggregator rules ws we cd pr lr)
      (by simp [mkAggregator, sumVals]))
    (stateOf_queue_pages_nonneg l (mkAggregator rules ws we cd pr lr)
      (by simp [mkAggregator]) hpg)
    (stateOf_queue_requests_nonneg l (mkAggregator rules ws we cd pr lr)
      (by simp [mkAggregator]))
    hpos

theorem queue_percentages_witness :
    |(((build_report (stateOf (mkAggregator [] 7 22 0 [] [])
        [sampleEntry "Q" "u" 5 1])).1.queue_stats.map (fun q => q.pages_pct)).sum) - 100| ≤
      (((build_report (stateOf (mkAggregator [] 7 22 0 [] [])
        [sampleEntry "Q" "u" 5 1])).1.queue_stats.length : ℚ)) * (1/10) ∧
    ∀ q ∈ (build_report (stateOf (mkAggregator [] 7 22 0 [] [])
        [sampleEntry "Q" "u" 5 1])).1.queue_stats,
      0 ≤ q.requests_pct ∧ q.requests_pct ≤ 100 ∧ 0 ≤ q.pages_pct ∧ q.pages_pct ≤ 100 :=
  queue_percentages [] 7 22 0 [] [] [sampleEntry "Q" "u" 5 1] (by decide) (by decide)

/-! ## C5: shard merge and permutation invariance of the tallies -/

attribute [ext] Totals

attribute [ext] AggState

/-- Observable instant of an optional timestamp. -/
def instOf : Option PyDateTime → Option Int
  | none => none
  | some t => some (toInstant t)

/-- Tally-level agreement of two aggregator states: equal totals, equal
earliest/latest instants, equal count at every key of every counter, and the
same inference rules. The order of ranked report lists is *not* part of it. -/
structure ObsEq (s t : AggState) : Prop where
  requests : s.totals.requests = t.totals.requests
  pages : s.totals.pages = t.totals.pages
  first : instOf s.totals.first_event = instOf t.totals.first_event
  last : instOf s.totals.last_event = instOf t.totals.last_event
  queue_requests : ∀ k, cntGet k s.queue_requests = cntGet k t.queue_requests
  queue_pages : ∀ k, cntGet k s.queue_pages = cntGet k t.queue_pages
  queue_user_pages : ∀ k : String × String,
    cntGet k s.queue_user_pages = cntGet k t.queue_user_pages
  user_requests : ∀ k, cntGet k s.user_requests = cntGet k t.user_requests
  user_pages : ∀ k, cntGet k s.user_pages = cntGet k t.user_pages
  hourly : ∀ k, cntGet k s.hourly = cntGet k t.hourly
  hourly_pages : ∀ k, cntGet k s.hourly_pages = cntGet k t.hourly_pages
  daily : ∀ k, cntGet k s.daily = cntGet k t.daily
  daily_pages : ∀ k, cntGet k s.daily_pages = cntGet k t.daily_pages
  job_histogram : ∀ k, cntGet k s.job_histogram = cntGet k t.job_histogram
  copy_histogram : ∀ k, cntGet k s.copy_histogram = cntGet k t.copy_histogram
  cost_pages : ∀ k, cntGet k s.cost_pages = cntGet k t.cost_pages
  cost_user_pages : ∀ a u, cnt2Get a u s.cost_user_pages = cnt2Get a u t.cost_user_pages
  cost_queue_pages : ∀ a u, cnt2Get a u s.cost_queue_pages = cnt2Get a u t.cost_queue_pages
  client_pages : ∀ k, cntGet k s.client_pages = cntGet k t.client_pages
  document_pages : ∀ k, cntGet k s.document_pages = cntGet k t.document_pages
  media_pages : ∀ k, cntGet k s.media_pages = cntGet k t.media_pages
  duplex_pages : ∀ k, cntGet k s.duplex_pages = cntGet k t.duplex_pages
  rules : s.cost_rules = t.cost_rules

theorem obsEq_refl (s : AggState) : ObsEq s s := by
  constructor <;> intros <;> rfl

theorem obsEq_trans {s t u : AggState} (h1 : ObsEq s t) (h2 : ObsEq t u) : ObsEq s u :=
  ⟨h1.requests.trans h2.requests,
   h1.pages.trans h2.pages,
   h1.first.trans h2.first,
   h1.last.trans h2.last,
   fun k => (h1.queue_requests k).trans (h2.queue_requests k),
   fun k => (h1.queue_pages k).trans (h2.queue_pages k),
   fun k => (h1.queue_user_pages k).trans (h2.queue_user_pages k),
   fun k => (h1.user_requests k).trans (h2.user_requests k),
   fun k => (h1.user_pages k).trans (h2.user_pages k),
   fun k => (h1.hourly k).trans (h2.hourly k),
   fun k => (h1.hourly_pages k).trans (h2.hourly_pages k),
   fun k => (h1.daily k).trans (h2.daily k),
   fun k => (h1.daily_pages k).trans (h2.daily_pages k),
   fun k => (h1.job_histogram k).trans (h2.job_histogram k),
   fun k => (h1.copy_histogram k).trans (h2.copy_histogram k),
   fun k => (h1.cost_pages k).trans (h2.cost_pages k),
   fun a u => (h1.cost_user_pages a u).trans (h2.cost_user_pages a u),
   fun a u => (h1.cost_queue_pages a u).trans (h2.cost_queue_pages a u),
   fun k => (h1.client_pages k).trans (h2.client_pages k),
   fun k => (h1.document_pages k).trans (h2.document_pages k),
   fun k => (h1.media_pages k).trans (h2.media_pages k),
   fun k => (h1.duplex_pages k).trans (h2.duplex_pages k),
   h1.rules.trans h2.rules⟩

theorem stepMin_congr {a b : Option PyDateTime} (ts : PyDateTime)
    (h : instOf a = instOf b) : instOf (stepMin ts a) = instOf (stepMin ts b) := by
  cases a with
  | none =>
    cases b with
    | none => rfl
    | some y => simp [instOf] at h
  | some x =>
    cases b with
    | none => simp [instOf] at h
    | some y =>
      have hxy : toInstant x = toInstant y := by simpa [instOf] using h
      simp only [stepMin, dtLt, hxy]
      split_ifs <;> simp [instOf, hxy]

theorem stepMax_congr {a b : Option PyDateTime} (ts : PyDateTime)
    (h : instOf a = instOf b) : instOf (stepMax ts a) = instOf (stepMax ts b) := by
  cases a with
  | none =>
    cases b with
    | none => rfl
    | some y => simp [instOf] at h
  | some x =>
    cases b with
    | none => simp [instOf] at h
    | some y =>
      have hxy : toInstant x = toInstant y := by simpa [instOf] using h
      simp only [stepMax, dtLt, hxy]
      split_ifs <;> simp [instOf, hxy]

theorem instOf_stepMin (a : PyDateTime) (o : Option PyDateTime) :
    instOf (stepMin a o) =
      some ((instOf o).elim (toInstant a) (fun m => min (toInstant a) m)) := by
  cases o with
  | none => rfl
  | some f =>
    simp only [stepMin, dtLt, decide_eq_true_eq]
    split_ifs with h <;> simp [instOf] <;> omega

theorem instOf_stepMax (a : PyDateTime) (o : Option PyDateTime) :
    instOf (stepMax a o) =
      some ((instOf o).elim (toInstant a) (fun m => max (toInstant a) m)) := by
  cases o with
  | none => rfl
  | some f =>
    simp only [stepMax, dtLt, decide_eq_true_eq]
    split_ifs with h <;> simp [instOf] <;> omega

theorem stepMin_swap (a b : PyDateTime) (o : Option PyDateTime) :
    instOf (stepMin a (stepMin b o)) = instOf (stepMin b (stepMin a o)) := by
  rw [instOf_stepMin, instOf_stepMin, instOf_stepMin, instOf_stepMin]
  cases o <;> simp [instOf] <;> omega

theorem stepMax_swap (a b : PyDateTime) (o : Option PyDateTime) :
    instOf (stepMax a (stepMax b o)) = instOf (stepMax b (stepMax a o)) := by
  rw [instOf_stepMax, instOf_stepMax, instOf_stepMax, instOf_stepMax]
  cases o <;> simp [instOf] <;> omega

theorem cntGet_cntAdd_comm {κ : Type} [DecidableEq κ] (k k1 k2 : κ) (v1 v2 : Int)
    (c : List (κ × Int)) :
    cntGet k (cntAdd k1 v1 (cntAdd k2 v2 c)) = cntGet k (cntAdd k2 v2 (cntAdd k1 v1 c)) := by
  rw [cntGet_cntAdd, cntGet_cntAdd, cntGet_cntAdd, cntGet_cntAdd]
  split_ifs <;> omega

theorem cnt2Get_cnt2Add_comm {κ κ' : Type} [DecidableEq κ] [DecidableEq κ']
    (a k1 k2 : κ) (u u1 u2 : κ') (v1 v2 : Int) (m : List (κ × List (κ' × Int))) :
    cnt2Get a u (cnt2Add k1 u1 v1 (cnt2Add k2 u2 v2 m)) =
      cnt2Get a u (cnt2Add k2 u2 v2 (cnt2Add k1 u1 v1 m)) := by
  rw [cnt2Get_cnt2Add, cnt2Get_cnt2Add, cnt2Get_cnt2Add, cnt2Get_cnt2Add]
  split_ifs <;> omega

theorem ingest_obsEq {s t : AggState} (h : ObsEq s t) (e : LogEntry) :
    ObsEq (ingest s e) (ingest t e) := by
  have hl : costLabel s.cost_rules e = costLabel t.cost_rules e := by rw [h.rules]
  constructor
  · simp only [ingest]; rw [h.requests]
  · simp only [ingest]; rw [h.pages]
  · simp only [ingest]; exact stepMin_congr e.timestamp h.first
  · simp only [ingest]; exact stepMax_congr e.timestamp h.last
  · intro k; simp only [ingest]; rw [cntGet_cntAdd, cntGet_cntAdd, h.queue_requests k]
  · intro k; simp only [ingest]; rw [cntGet_cntAdd, cntGet_cntAdd, h.queue_pages k]
  · intro k; simp only [ingest]; rw [cntGet_cntAdd, cntGet_cntAdd, h.queue_user_pages k]
  · intro k; simp only [ingest]; rw [cntGet_cntAdd, cntGet_cntAdd, h.user_requests k]
  · intro k; simp only [ingest]; rw [cntGet_cntAdd, cntGet_cntAdd, h.user_pages k]
  · intro k; simp only [ingest]; rw [cntGet_cntAdd, cntGet_cntAdd, h.hourly k]
  · intro k; simp only [ingest]; rw [cntGet_cntAdd, cntGet_cntAdd, h.hourly_pages k]
  · intro k; simp only [ingest]; rw [cntGet_cntAdd, cntGet_cntAdd, h.daily k]
  · intro k; simp only [ingest]; rw [cntGet_cntAdd, cntGet_cntAdd, h.daily_pages k]
  · intro k; simp only [ingest]; rw [cntGet_cntAdd, cntGet_cntAdd, h.job_histogram k]
  · intro k; simp only [ingest]; rw [cntGet_cntAdd, cntGet_cntAdd, h.copy_histogram k]
  · intro k; simp only [ingest]; rw [cntGet_cntAdd, cntGet_cntAdd, hl, h.cost_pages k]
  · intro a u
    simp only [ingest]
    rw [cnt2Get_cnt2Add, cnt2Get_cnt2Add, hl, h.cost_user_pages a u]
  · intro a u
    simp only [ingest]
    rw [cnt2Get_cnt2Add, cnt2Get_cnt2Add, hl, h.cost_queue_pages a u]
  · intro k; simp only [ingest]; rw [cntGet_cntAdd, cntGet_cntAdd, h.client_pages k]
  · intro k; simp only [ingest]; rw [cntGet_cntAdd, cntGet_cntAdd, h.document_pages k]
  · intro k; simp only [ingest]; rw [cntGet_cntAdd, cntGet_cntAdd, h.media_pages k]
  · intro k; simp only [ingest]; rw [cntGet_cntAdd, cntGet_cntAdd, h.duplex_pages k]
  · simp only [ingest]; exact h.rules

theorem ingest_swap_obsEq (s : AggState) (x y : LogEntry) :
    ObsEq (ingest (ingest s x) y) (ingest (ingest s y) x) := by
  constructor
  · simp only [ingest]
  · simp only [ingest]; omega
  · simp only [ingest]; exact stepMin_swap y.timestamp x.timestamp s.totals.first_event
  · simp only [ingest]; exact stepMax_swap y.timestamp x.timestamp s.totals.last_event
  · intro k; simp only [ingest]; exact cntGet_cntAdd_comm k _ _ _ _ _
  · intro k; simp only [ingest]; exact cntGet_cntAdd_comm k _ _ _ _ _
  · intro k; simp only [ingest]; exact cntGet_cntAdd_comm k _ _ _ _ _
  · intro k; simp only [ingest]; exact cntGet_cntAdd_comm k _ _ _ _ _
  · intro k; simp only [ingest]; exact cntGet_cntAdd_comm k _ _ _ _ _
  · intro k; simp only [ingest]; exact cntGet_cntAdd_comm k _ _ _ _ _
  · intro k; simp only [ingest]; exact cntGet_cntAdd_comm k _ _ _ _ _
  · intro k; simp only [ingest]; exact cntGet_cntAdd_comm k _ _ _ _ _
  · intro k; simp only [ingest]; exact cntGet_cntAdd_comm k _ _ _ _ _
  · intro k; simp only [ingest]; exact cntGet_cntAdd_comm k _ _ _ _ _
  · intro k; simp only [ingest]; exact cntGet_cntAdd_comm k _ _ _ _ _
  · intro k; simp only [ingest]; exact cntGet_cntAdd_comm k _ _ _ _ _
  · intro a u; simp only [ingest]; exact cnt2Get_cnt2Add_comm a _ _ u _ _ _ _ _
  · intro a u; simp only [ingest]; exact cnt2Get_cnt2Add_comm a _ _ u _ _ _ _ _
  · intro k; simp only [ingest]; exact cntGet_cntAdd_comm k _ _ _ _ _
  · intro k; simp only [ingest]; exact cntGet_cntAdd_comm k _ _ _ _ _
  · intro k; simp only [ingest]; exact cntGet_cntAdd_comm k _ _ _ _ _
  · intro k; simp only [ingest]; exact cntGet_cntAdd_comm k _ _ _ _ _
  · simp only [ingest]

theorem foldl_ingest_obsEq {s t : AggState} (h : ObsEq s t) :
    ∀ (l : List LogEntry), ObsEq (l.foldl ingest s) (l.foldl ingest t)
  | [] => h
  | e :: l => foldl_ingest_obsEq (ingest_obsEq h e) l

theorem perm_foldl_obsEq {l l' : List LogEntry} (hp : List.Perm l l') :
    ∀ (s : AggState), ObsEq (l.foldl ingest s) (l'.foldl ingest s) := by
  induction hp with
  | nil => exact fun s => obsEq_refl s
  | cons x _ ih => exact fun s => ih (ingest s x)
  | swap x y l => exact fun s => foldl_ingest_obsEq (ingest_swap_obsEq s y x) l
  | trans _ _ ih1 ih2 => exact fun s => obsEq_trans (ih1 s) (ih2 s)

/-- C5 (amended): merging the singleton shard tallies of `[A]` and `[B]`
counter-wise (min of earliest, max of latest timestamps) yields exactly the
state of the single aggregator run on `[A, B]`; and for every permutation of
the ingestion sequence the two final states agree on every tally (totals,
instants, every counter at every key) — though the report's ranked lists may
order tied entries differently. -/
theorem shard_merge_and_permutation :
    (∀ (rules : List (String × String)) (ws we : Int) (cd : ℚ)
       (pr lr : List (String × ℚ)) (a b : LogEntry),
      mergeAgg (stateOf (mkAggregator rules ws we cd pr lr) [a])
               (stateOf (mkAggregator rules ws we cd pr lr) [b]) =
        stateOf (mkAggregator rules ws we cd pr lr) [a, b]) ∧
    (∀ (rules : List (String × String)) (ws we : Int) (cd : ℚ)
       (pr lr : List (String × ℚ)) (l l' : List LogEntry), List.Perm l l' →
      ObsEq (stateOf (mkAggregator rules ws we cd pr lr) l)
            (stateOf (mkAggregator rules ws we cd pr lr) l')) := by
  constructor
  · intro rules ws we cd pr lr a b
    apply AggState.ext <;>
      first
        | rfl
        | (apply Totals.ext <;>
            first
              | rfl
              | (simp only [stateOf, List.foldl, mergeAgg, ingest, mkAggregator]
                 omega))
  · intro rules ws we cd pr lr l l' hp
    exact perm_foldl_obsEq hp (mkAggregator rules ws we cd pr lr)

theorem shard_merge_and_permutation_witness :
    ObsEq (stateOf (mkAggregator [] 7 22 0 [] [])
            [sampleEntry "Q1" "a" 5 1, sampleEntry "Q2" "b" 7 1])
          (stateOf (mkAggregator [] 7 22 0 [] [])
            [sampleEntry "Q2" "b" 7 1, sampleEntry "Q1" "a" 5 1]) :=
  shard_merge_and_permutation.2 [] 7 22 0 [] [] _ _ (List.Perm.swap _ _ _)

end PrintAudit
